import Mathlib

set_option maxRecDepth 100000

/-!
Shallow embedding of the core of the `playwright-test-framework` repository:
`src/core/api_change_detector.py`, `src/core/api_generator.py`,
`src/core/request_interceptor.py` and `src/utils/helpers.py`.

Python strings are modelled as Lean `String`s; character classification and
case mapping are restricted to ASCII (the source's `str` methods are
Unicode-aware, but every string in this development is ASCII). Python dicts
are modelled as association lists or as functions `String → Option String`,
and Python's `hashlib.md5` is implemented in full below over `Nat` with
explicit `% 2 ^ 32` truncation.
-/

namespace PWTF

/-! ## 32-bit arithmetic over `Nat` -/

/-- Addition truncated to 32 bits. -/
def add32 (a b : Nat) : Nat := (a + b) % 4294967296

/-- Bitwise complement of a 32-bit value. -/
def not32 (x : Nat) : Nat := x ^^^ 4294967295

/-- Left rotation of a 32-bit value by `n` bits (`0 < n < 32`). -/
def rotl32 (x n : Nat) : Nat :=
  ((x <<< n) % 4294967296) ||| (x >>> (32 - n))

/-! ## MD5 (`hashlib.md5(...).hexdigest()`) -/

/-- MD5 sine-derived constant table `T[i] = ⌊2^32·|sin(i+1)|⌋`. -/
def md5K : List Nat :=
  [3614090360, 3905402710, 606105819, 3250441966,
   4118548399, 1200080426, 2821735955, 4249261313,
   1770035416, 2336552879, 4294925233, 2304563134,
   1804603682, 4254626195, 2792965006, 1236535329,
   4129170786, 3225465664, 643717713, 3921069994,
   3593408605, 38016083, 3634488961, 3889429448,
   568446438, 3275163606, 4107603335, 1163531501,
   2850285829, 4243563512, 1735328473, 2368359562,
   4294588738, 2272392833, 1839030562, 4259657740,
   2763975236, 1272893353, 4139469664, 3200236656,
   681279174, 3936430074, 3572445317, 76029189,
   3654602809, 3873151461, 530742520, 3299628645,
   4096336452, 1126891415, 2878612391, 4237533241,
   1700485571, 2399980690, 4293915773, 2240044497,
   1873313359, 4264355552, 2734768916, 1309151649,
   4149444226, 3174756917, 718787259, 3951481745]

/-- MD5 per-round left-rotation amounts. -/
def md5S : List Nat :=
  [7, 12, 17, 22, 7, 12, 17, 22, 7, 12, 17, 22, 7, 12, 17, 22,
   5, 9, 14, 20, 5, 9, 14, 20, 5, 9, 14, 20, 5, 9, 14, 20,
   4, 11, 16, 23, 4, 11, 16, 23, 4, 11, 16, 23, 4, 11, 16, 23,
   6, 10, 15, 21, 6, 10, 15, 21, 6, 10, 15, 21, 6, 10, 15, 21]

/-- MD5 nonlinear round function for round `i`. -/
def md5F (i x y z : Nat) : Nat :=
  if i < 16 then (x &&& y) ||| (not32 x &&& z)
  else if i < 32 then (x &&& z) ||| (y &&& not32 z)
  else if i < 48 then x ^^^ y ^^^ z
  else y ^^^ (x ||| not32 z)

/-- MD5 message-word index for round `i`. -/
def md5G (i : Nat) : Nat :=
  if i < 16 then i
  else if i < 32 then (5 * i + 1) % 16
  else if i < 48 then (3 * i + 5) % 16
  else (7 * i) % 16

/-- The four 32-bit MD5 chaining variables. -/
structure MD5State where
  a : Nat
  b : Nat
  c : Nat
  d : Nat

/-- One of the 64 MD5 rounds, applied to the 16-word message block `m`. -/
def md5Round (m : List Nat) (st : MD5State) (i : Nat) : MD5State :=
  let f := md5F i st.b st.c st.d
  let tmp := add32 (add32 (add32 f st.a) (md5K.getD i 0)) (m.getD (md5G i) 0)
  { a := st.d, d := st.c, c := st.b,
    b := add32 st.b (rotl32 tmp (md5S.getD i 0)) }

/-- Process one 16-word block. -/
def md5Block (st : MD5State) (m : List Nat) : MD5State :=
  let r := (List.range 64).foldl (md5Round m) st
  { a := add32 st.a r.a, b := add32 st.b r.b,
    c := add32 st.c r.c, d := add32 st.d r.d }

/-- Little-endian byte decomposition (`n` bytes). -/
def toBytesLE (n x : Nat) : List Nat :=
  (List.range n).map fun i => (x >>> (8 * i)) % 256

/-- MD5 padding: `0x80`, zeros to 56 mod 64, then the 64-bit little-endian
bit length. -/
def md5Pad (msg : List Nat) : List Nat :=
  msg ++ [128] ++ List.replicate ((119 - msg.length % 64) % 64) 0
      ++ toBytesLE 8 (8 * msg.length)

/-- Group bytes into little-endian 32-bit words. -/
def bytesToWordsLE : List Nat → List Nat
  | b0 :: b1 :: b2 :: b3 :: rest =>
      (b0 + 256 * b1 + 65536 * b2 + 16777216 * b3) :: bytesToWordsLE rest
  | _ => []

/-- Split a word list (whose length is a multiple of 16) into blocks. -/
def splitBlocks : List Nat → List (List Nat)
  | w0 :: w1 :: w2 :: w3 :: w4 :: w5 :: w6 :: w7 ::
    w8 :: w9 :: w10 :: w11 :: w12 :: w13 :: w14 :: w15 :: rest =>
      [w0, w1, w2, w3, w4, w5, w6, w7,
       w8, w9, w10, w11, w12, w13, w14, w15] :: splitBlocks rest
  | _ => []

/-- The MD5 initial chaining state. -/
def md5InitState : MD5State :=
  ⟨1732584193, 4023233417, 2562383102, 271733878⟩

/-- Lower-case hexadecimal digit. -/
def hexDigitChar (n : Nat) : Char :=
  if n < 10 then Char.ofNat (48 + n) else Char.ofNat (87 + n)

/-- Two lower-case hex digits of a byte. -/
def byteHex (b : Nat) : List Char := [hexDigitChar (b / 16), hexDigitChar (b % 16)]

/-- Models `hashlib.md5(bytes).hexdigest()`: MD5 digest of a byte sequence as a
lower-case hex string. -/
def md5Hex (msg : List Nat) : String :=
  let st := (splitBlocks (bytesToWordsLE (md5Pad msg))).foldl md5Block md5InitState
  String.mk ((([st.a, st.b, st.c, st.d].flatMap (toBytesLE 4)).flatMap byteHex))

/-- Models `str.encode()`: UTF-8 bytes of one code point. -/
def utf8Bytes (c : Nat) : List Nat :=
  if c < 128 then [c]
  else if c < 2048 then [192 + c / 64, 128 + c % 64]
  else if c < 65536 then [224 + c / 4096, 128 + (c / 64) % 64, 128 + c % 64]
  else [240 + c / 262144, 128 + (c / 4096) % 64, 128 + (c / 64) % 64, 128 + c % 64]

/-- Models `str.encode()`: UTF-8 bytes of a string. -/
def strBytes (s : String) : List Nat := s.toList.flatMap fun c => utf8Bytes c.toNat

/-! ## Data model

A `CapturedRequest` is one record as built by
`RequestInterceptor._handle_route` and consumed as a plain dict by the
detector and generator. Optional dict keys are modelled as `Option` fields;
`request.get(k, d)` becomes `Option.getD`. Python values occurring as
request/response bodies are modelled by `PyVal`. -/

/-- A Python (JSON-decoded) value. -/
inductive PyVal where
  | pyNone : PyVal
  | pyBool : Bool → PyVal
  | pyInt : Int → PyVal
  | pyStr : String → PyVal
  | pyList : List PyVal → PyVal
  | pyDict : List (String × PyVal) → PyVal

/-- The `response` sub-dict of a captured request (`_handle_route` line
124: status, status_text, headers, best-effort body). `status` is `Option`
because the detector reads it with `.get('status')`. -/
structure PyResponse where
  status : Option Int
  statusText : String
  headers : List (String × String)
  body : Option PyVal

/-- One captured request/response record. `method` and `url` are `Option`
because the detector reads them with `request.get('method')` /
`request.get('url', '')`; the recorder always fills them in. Dict insertion
order of `headers` / `body` keys is kept by using association lists. -/
structure CapturedRequest where
  timestamp : String
  method : Option String
  url : Option String
  headers : List (String × String)
  resourceType : String
  body : Option PyVal
  response : Option PyResponse

/-! ## URL helpers

`url.split('?')[0]` and the `.path` component of
`urllib.parse.urlparse(url)`. The `urlparse` model implements the scheme /
netloc / fragment / query splitting of `urlsplit` (CPython) for URLs; the
`;params` split and the C0-control stripping, which no string in this
development triggers, are omitted. -/

/-- Models `url.split('?')[0]`: the prefix before the first `'?'`. -/
def stripQuery (s : String) : String :=
  String.mk (s.toList.takeWhile fun c => !(c == '?'))

/-- Characters allowed in a URL scheme after the initial letter. -/
def isSchemeChar (c : Char) : Bool :=
  c.isAlphanum || c == '+' || c == '-' || c == '.'

/-- Remove a leading `scheme:` when the prefix before the first `':'` is a
valid scheme (nonempty, leading ASCII letter, scheme characters only). -/
def splitScheme (cs : List Char) : List Char :=
  let pre := cs.takeWhile fun c => !(c == ':')
  match cs.dropWhile fun c => !(c == ':') with
  | ':' :: rest =>
      if pre ≠ [] ∧ pre.headI.isAlpha ∧ pre.all isSchemeChar then rest else cs
  | _ => cs

/-- Strip a leading `//netloc` (the netloc runs to the next `/`, `?` or
`#`, which is kept). -/
def dropNetloc : List Char → List Char
  | '/' :: '/' :: rest => rest.dropWhile fun c => !(c == '/' || c == '?' || c == '#')
  | cs => cs

/-- Models `urlparse(url).path` (on `List Char`): strip the scheme, strip a
`//netloc`, then cut at the first `?` or `#`. -/
def urlPathAux (cs : List Char) : List Char :=
  (dropNetloc (splitScheme cs)).takeWhile fun c => !(c == '?' || c == '#')

/-- Models `urlparse(url).path` on strings. -/
def urlPath (s : String) : String := String.mk (urlPathAux s.toList)

/-! ## `APIChangeDetector._generate_api_signature` / `_generate_request_hash` -/

/-- Models `_generate_api_signature`: `f"{method}:{path}"` with
`method = request.get('method', 'GET')` and `path = urlparse(url).path`. -/
def generate_api_signature (r : CapturedRequest) : String :=
  (r.method.getD "GET") ++ ":" ++ urlPath (r.url.getD "")

/-- The `key_info` dict built by `_generate_request_hash`. -/
structure KeyInfo where
  method : Option String
  url : String
  bodyKeys : Option (List String)
  responseStatus : Option Int

/-- Models `key_info` of a record: method, URL without query string, the body's
key list when the body is a dict (else `None`), and the response status. -/
def requestKeyInfo (r : CapturedRequest) : KeyInfo where
  method := r.method
  url := stripQuery (r.url.getD "")
  bodyKeys := match r.body with
    | some (PyVal.pyDict entries) => some (entries.map Prod.fst)
    | _ => none
  responseStatus := r.response.bind (·.status)

/-- Hex digits of `n` (lower-case), `width` digits. -/
def hexPad (width n : Nat) : List Char :=
  (List.range width).reverse.map fun i => hexDigitChar ((n >>> (4 * i)) % 16)

/-- Models `json.dumps` escaping of one character (`ensure_ascii=True`): printable
ASCII except `"` and `\` is literal, the short escapes for common controls,
`\uXXXX` otherwise, with surrogate pairs above `0xFFFF`. -/
def jsonEscapeChar (c : Char) : List Char :=
  let n := c.toNat
  if c == '"' then ['\\', '"']
  else if c == '\\' then ['\\', '\\']
  else if n == 8 then ['\\', 'b']
  else if n == 9 then ['\\', 't']
  else if n == 10 then ['\\', 'n']
  else if n == 12 then ['\\', 'f']
  else if n == 13 then ['\\', 'r']
  else if 32 ≤ n && n ≤ 126 then [c]
  else if n < 65536 then '\\' :: 'u' :: hexPad 4 n
  else ('\\' :: 'u' :: hexPad 4 (55296 + (n - 65536) / 1024))
       ++ ('\\' :: 'u' :: hexPad 4 (56320 + (n - 65536) % 1024))

/-- Models `json.dumps` of a string. -/
def jsonStr (s : String) : String :=
  "\"" ++ String.mk (s.toList.flatMap jsonEscapeChar) ++ "\""

/-- Models `json.dumps` of `None` or a string. -/
def jsonOptStr : Option String → String
  | none => "null"
  | some s => jsonStr s

/-- Models `json.dumps` of `None` or a list of strings. -/
def jsonOptStrList : Option (List String) → String
  | none => "null"
  | some xs => "[" ++ String.intercalate ", " (xs.map jsonStr) ++ "]"

/-- Models `json.dumps` of `None` or an int. -/
def jsonOptInt : Option Int → String
  | none => "null"
  | some n => toString n

/-- Models `json.dumps(key_info, sort_keys=True)`: the four keys in sorted order
(`body_keys`, `method`, `response_status`, `url`) with the default
`", "` / `": "` separators. -/
def keyInfoStr (k : KeyInfo) : String :=
  "\x7b\"body_keys\": " ++ jsonOptStrList k.bodyKeys
    ++ ", \"method\": " ++ jsonOptStr k.method
    ++ ", \"response_status\": " ++ jsonOptInt k.responseStatus
    ++ ", \"url\": " ++ jsonStr k.url ++ "\x7d"

/-- Models `_generate_request_hash`: MD5 hex digest of the canonical `key_info`
serialization. -/
def generate_request_hash (r : CapturedRequest) : String :=
  md5Hex (strBytes (keyInfoStr (requestKeyInfo r)))

/-! ## `APIChangeDetector.detect_changes`

`self.cached_apis` (the in-memory Baseline, a Python dict
`{signature: hash}`) is modelled as a function `String → Option String`;
`_save_cache` writing the baseline file is modelled by the `saved` flag of
the result. -/

/-- A signature → fingerprint mapping (Python dict of strings). -/
abbrev Store := String → Option String

/-- The empty dict. -/
def Store.empty : Store := fun _ => none

/-- Models `d[k] = v` on a dict. -/
def Store.set (m : Store) (k v : String) : Store :=
  fun s => if s = k then some v else m s

/-- Models `base.update(upd)`: keys present in `upd` win. -/
def Store.updateWith (base upd : Store) : Store :=
  fun s => match upd s with
  | some v => some v
  | none => base s

/-- Loop state of `detect_changes`: the two result lists and the
`current_signatures` dict. -/
structure DetectState where
  newRequests : List CapturedRequest
  changedRequests : List CapturedRequest
  currentSignatures : Store

/-- One iteration of the `for request in requests` loop of
`detect_changes`: record the latest fingerprint in `current_signatures`,
then classify against `cached` (the baseline as loaded, never mutated
inside the loop). -/
def detectStep (cached : Store) (st : DetectState) (r : CapturedRequest) : DetectState :=
  let signature := generate_api_signature r
  let requestHash := generate_request_hash r
  let cur := st.currentSignatures.set signature requestHash
  match cached signature with
  | none =>
      { st with newRequests := st.newRequests ++ [r], currentSignatures := cur }
  | some h =>
      if h ≠ requestHash then
        { st with changedRequests := st.changedRequests ++ [r], currentSignatures := cur }
      else
        { st with currentSignatures := cur }

/-- Result of `detect_changes`: the returned triple plus the detector's
cache state after the call (`cachedAfter`) and whether `_save_cache` ran
(`saved`, i.e. the on-disk baseline was overwritten with `cachedAfter`). -/
structure DetectResult where
  newRequests : List CapturedRequest
  changedRequests : List CapturedRequest
  hasChanges : Bool
  cachedAfter : Store
  saved : Bool

/-- Models `detect_changes(requests)` run against the baseline `cached`. -/
def detect_changes (cached : Store) (requests : List CapturedRequest) : DetectResult :=
  let st := requests.foldl (detectStep cached) ⟨[], [], Store.empty⟩
  let hasChanges := st.newRequests.length > 0 || st.changedRequests.length > 0
  { newRequests := st.newRequests
    changedRequests := st.changedRequests
    hasChanges := hasChanges
    cachedAfter := if hasChanges then Store.updateWith cached st.currentSignatures else cached
    saved := hasChanges }

/-! ## `APITestGenerator._sanitize_name` / `_extract_test_name`

`str.isalnum`, `str.isalpha`, `str.lower` are modelled by their ASCII
restrictions (`Char.isAlphanum`, `Char.isAlpha`, `Char.toLower`); every
name in this development is ASCII. -/

/-- One pass of `str.replace('__', '_')`: left-to-right, non-overlapping. -/
def replaceDunder : List Char → List Char
  | [] => []
  | [c] => [c]
  | c :: d :: rest =>
      if c = '_' ∧ d = '_' then '_' :: replaceDunder rest
      else c :: replaceDunder (d :: rest)

/-- Models `'__' in s`: some adjacent pair of underscores. -/
def hasDunder : List Char → Bool
  | [] => false
  | [_] => false
  | c :: d :: rest => (c = '_' && d = '_') || hasDunder (d :: rest)

/-- Models `collapseUnderscores` with an explicit iteration bound. -/
def collapseFuel : Nat → List Char → List Char
  | 0, cs => cs
  | n + 1, cs => if hasDunder cs then collapseFuel n (replaceDunder cs) else cs

/-- Models `while '__' in sanitized: sanitized = sanitized.replace('__', '_')`.
Each pass strictly shortens a string still containing `"__"`
(`replaceDunder_length_lt`), so `cs.length` passes always reach the loop's
exit condition; the bounded iteration is therefore the exact while loop. -/
def collapseUnderscores (cs : List Char) : List Char :=
  collapseFuel cs.length cs

/-- Models `str.strip('_')`: drop leading and trailing underscores. -/
def stripUnderscores (cs : List Char) : List Char :=
  ((cs.dropWhile fun c => c == '_').reverse.dropWhile fun c => c == '_').reverse

/-- Models `_sanitize_name`: replace non-alphanumeric, non-underscore characters
by `_`, collapse `__` runs, strip edge underscores, prepend `test_` when
the (nonempty) result does not start with a letter, lower-case. -/
def sanitize_name (name : String) : String :=
  let s1 := name.toList.map fun c => if c.isAlphanum || c == '_' then c else '_'
  let s2 := collapseUnderscores s1
  let s3 := stripUnderscores s2
  let s4 := if s3 ≠ [] ∧ ¬(s3.headI.isAlpha) then
      't' :: 'e' :: 's' :: 't' :: '_' :: s3 else s3
  String.mk (s4.map Char.toLower)

/-- The two dict keys `_generate_test_function` and `_extract_test_name`
access mandatorily (`request_data['method']`, `request_data['url']`). -/
structure GenRequest where
  method : String
  url : String

/-- Models `url.split('?')[0].split('/')[-1] or 'root'`: the suffix of the
query-stripped URL after its last `'/'` (the whole string when it has no
`'/'`), with the Python `or` falling back to `"root"` when that suffix is
empty. -/
def lastSegment (url : String) : String :=
  let beforeQ := url.toList.takeWhile fun c => !(c == '?')
  let seg := (beforeQ.reverse.takeWhile fun c => !(c == '/')).reverse
  if seg = [] then "root" else String.mk seg

/-- Models `_extract_test_name`: `f"test_{method.lower()}_{sanitized}"`. -/
def extract_test_name (r : GenRequest) : String :=
  "test_" ++ String.mk (r.method.toList.map Char.toLower) ++ "_"
    ++ sanitize_name (lastSegment r.url)

/-- Decimal digits, most significant first, with an iteration bound (every
division by ten strictly shrinks the argument, so `fuel > n` suffices). -/
def natDigitsFuel : Nat → Nat → List Char
  | 0, _ => []
  | fuel + 1, n =>
      if n < 10 then [Char.ofNat (48 + n)]
      else natDigitsFuel fuel (n / 10) ++ [Char.ofNat (48 + n % 10)]

/-- Decimal digits of `n`; models Python's `str(int)` / f-string
formatting of a nonnegative integer. -/
def natDigits (n : Nat) : List Char := natDigitsFuel (n + 1) n

/-- Decimal rendering of a `Nat`. -/
def natRepr (n : Nat) : String := String.mk (natDigits n)

/-- The name given to the `index`-th occurrence (`_generate_test_function`:
`if index > 0: test_name = f"{test_name}_{index}"`). -/
def testFunctionName (r : GenRequest) (index : Nat) : String :=
  let n := extract_test_name r
  if index > 0 then n ++ "_" ++ natRepr index else n

/-- The `test_name_counts` bookkeeping loop of `_generate_test_file`,
restricted to the emitted function names (the function-body text, which no
claim mentions, is elided). `counts` models the dict with
`counts.get(base, 0)` defaulting to `0`. -/
def genNamesLoop (counts : String → Nat) : List GenRequest → List String
  | [] => []
  | r :: rest =>
      let base := extract_test_name r
      let count := counts base
      testFunctionName r count ::
        genNamesLoop (fun s => if s = base then count + 1 else counts s) rest

/-- The function names of the suite generated from an ordered batch. -/
def generateTestNames (requests : List GenRequest) : List String :=
  genNamesLoop (fun _ => 0) requests

/-! ## `APITestGenerator.generate_from_file`

`load_json` (`src/utils/helpers.py`) is `json.load` on the opened file; a
file that is not valid JSON raises, which is modelled by feeding
`generate_from_file` an `Except.error`. A successfully decoded file is a
`PyVal`. The result distinguishes a propagated error (`Except.error`), the
empty-batch no-op that writes nothing and returns `""` (`Except.ok none`),
and a generated file (`Except.ok (some names)`, carrying the function
names; the emitted body text is elided as in `generateTestNames`). -/

/-- Python truthiness of a decoded JSON value. -/
def PyVal.isTruthy : PyVal → Bool
  | PyVal.pyNone => false
  | PyVal.pyBool b => b
  | PyVal.pyInt n => n ≠ 0
  | PyVal.pyStr s => s ≠ ""
  | PyVal.pyList xs => !xs.isEmpty
  | PyVal.pyDict es => !es.isEmpty

/-- Models `d.get(k)` on a decoded JSON object (first binding wins, as dict keys
are unique). -/
def pyDictGet? (entries : List (String × PyVal)) (k : String) : Option PyVal :=
  (entries.find? fun p => p.1 == k).map Prod.snd

/-- Extraction of the fields the generator accesses mandatorily
(`request_data['method'].lower()`, `request_data['url'].split(...)`): a
record that is not a dict carrying string `method` and `url` raises
(`TypeError`/`KeyError`/`AttributeError`). -/
def extractGenRequest : PyVal → Except String GenRequest
  | PyVal.pyDict es =>
      match pyDictGet? es "method", pyDictGet? es "url" with
      | some (PyVal.pyStr m), some (PyVal.pyStr u) =>
          Except.ok { method := m, url := u }
      | _, _ => Except.error "KeyError or TypeError on record fields"
  | _ => Except.error "TypeError: record is not a dict"

/-- Models `generate_from_file`: propagate a `load_json` failure; read
`data.get('requests', [])` (raising when `data` is not a dict); return the
no-op `""` without writing when `requests` is falsy; otherwise generate
every test function and only then write the output file. A truthy
`requests` value that is not a list of well-formed records raises before
anything is written (the file is opened only after `_generate_test_file`
has returned). -/
def generate_from_file (parsed : Except String PyVal) :
    Except String (Option (List String)) :=
  match parsed with
  | Except.error e => Except.error e
  | Except.ok (PyVal.pyDict es) =>
      let requests := (pyDictGet? es "requests").getD (PyVal.pyList [])
      if !requests.isTruthy then Except.ok none
      else
        match requests with
        | PyVal.pyList items =>
            (items.mapM extractGenRequest).map fun rs =>
              some (generateTestNames rs)
        | _ => Except.error "TypeError: requests is not iterable records"
  | Except.ok _ => Except.error "AttributeError: data is not a dict"

/-- Modelled from the spec (section 6, Batch file): “the expected batch
format” is a JSON object `\x7btotal, timestamp, hosts, requests\x7d` with
`requests` a list. The source has no such validation; this predicate
exists only to state claims that quantify over batch-format inputs. -/
def isExpectedBatchFormat : PyVal → Bool
  | PyVal.pyDict es =>
      (pyDictGet? es "total").isSome
      && (pyDictGet? es "timestamp").isSome
      && (pyDictGet? es "hosts").isSome
      && (match pyDictGet? es "requests" with
          | some (PyVal.pyList _) => true
          | _ => false)
  | _ => false

/-! ## `RequestInterceptor` (`_should_intercept`, `_generate_signature`,
`_handle_route`)

A network event is modelled with the outcome of `route.fetch()` attached
(`fetchResult = none` models the exception branch in which nothing is
recorded and the route just continues). Only the recording behaviour is
modelled; `route.continue_` / `route.fulfill` pass-through is a no-op on
the recorder's state. -/

/-- Constructor arguments of `RequestInterceptor`. -/
structure InterceptorConfig where
  hosts : List String
  deduplicate : Bool
  ignoreResourceTypes : List String

/-- One interceptable network event as seen by `_handle_route`:
the request data plus the fetched response (`none` when `route.fetch()`
fails). `timestamp` is the `datetime.now().isoformat()` value observed at
capture time; `body` is the request body after the JSON-decode-or-raw
fallback (`none` when there was no post data or reading it failed). -/
structure RouteEvent where
  timestamp : String
  method : String
  url : String
  headers : List (String × String)
  resourceType : String
  body : Option PyVal
  fetchResult : Option PyResponse

/-- Models `_should_intercept`: false for ignored resource types, else true iff
some allow-listed host is a substring of the URL. -/
def should_intercept (cfg : InterceptorConfig) (e : RouteEvent) : Bool :=
  if cfg.ignoreResourceTypes.contains e.resourceType then false
  else cfg.hosts.any fun host => decide (host.toList <:+: e.url.toList)

/-- Models `_generate_signature`: `f"{method}:{url.split('?')[0]}"`. -/
def interceptor_signature (e : RouteEvent) : String :=
  e.method ++ ":" ++ stripQuery e.url

/-- Recorder state: `self.intercepted_requests` and the
`self._request_signatures` dedupe set (modelled as the list of its
elements in insertion order). -/
structure InterceptorState where
  interceptedRequests : List CapturedRequest
  requestSignatures : List String

/-- The `CapturedRequest` record `_handle_route` builds for an event whose
fetch returned `resp`. -/
def capturedOf (e : RouteEvent) (resp : PyResponse) : CapturedRequest where
  timestamp := e.timestamp
  method := some e.method
  url := some e.url
  headers := e.headers
  resourceType := e.resourceType
  body := e.body
  response := some resp

/-- Models `_handle_route` on one event: skip non-intercepted events; with dedupe
enabled, skip events whose signature was already seen and otherwise add
the signature; then record the request iff `route.fetch()` succeeded. -/
def handle_route (cfg : InterceptorConfig) (st : InterceptorState)
    (e : RouteEvent) : InterceptorState :=
  if !(should_intercept cfg e) then st
  else if cfg.deduplicate && st.requestSignatures.contains (interceptor_signature e) then st
  else
    let st1 := if cfg.deduplicate then
        { st with requestSignatures := st.requestSignatures ++ [interceptor_signature e] }
      else st
    match e.fetchResult with
    | some resp =>
        { st1 with interceptedRequests := st1.interceptedRequests ++ [capturedOf e resp] }
    | none => st1

/-- A fresh recorder processing a list of events in order. -/
def runInterceptor (cfg : InterceptorConfig) (events : List RouteEvent) :
    InterceptorState :=
  events.foldl (handle_route cfg) ⟨[], []⟩

/-! ## Specification-side definitions

These definitions restate parts of the spec in independent vocabulary;
the theorems below compare them with the source-derived functions. -/

/-- A record is classified **new** iff its signature is absent from the
baseline the run started with. -/
def isNewUnder (cached : Store) (r : CapturedRequest) : Bool :=
  (cached (generate_api_signature r)).isNone

/-- A record is classified **changed** iff the baseline holds a different
fingerprint for its signature. -/
def isChangedUnder (cached : Store) (r : CapturedRequest) : Bool :=
  match cached (generate_api_signature r) with
  | some h => h != generate_request_hash r
  | none => false

/-- The latest fingerprint observed for signature `s` in a batch: the hash
of the last record whose signature is `s`. -/
def lastHashFor : List CapturedRequest → String → Option String
  | [], _ => none
  | r :: rest, s =>
      match lastHashFor rest s with
      | some v => some v
      | none =>
          if generate_api_signature r = s then some (generate_request_hash r)
          else none

/-- Decimal value of a digit string (left inverse of `natDigits`). -/
def digitsVal (cs : List Char) : Nat :=
  cs.foldl (fun a c => 10 * a + (c.toNat - 48)) 0

/-- The suffix after the last `'/'` (the whole list when it has none):
scan left to right, resetting at every slash. -/
def afterLastSlash (cs : List Char) : List Char :=
  cs.foldl (fun acc c => if c = '/' then [] else acc ++ [c]) []

/-- Modelled from the spec (§4.4 `deriveTestName`): `"test_" + lowercased
method + "_" + sanitizeIdentifier(last non-empty path segment of the URL's
path, or "root" if the path is "/" or empty)`. Stated from the spec's
words, for comparison with `extract_test_name`. -/
def deriveTestNameSpec (r : GenRequest) : String :=
  let path := (urlPath r.url).toList
  let trimmed := (path.reverse.dropWhile fun c => c == '/').reverse
  let seg := afterLastSlash trimmed
  let segStr := if seg = [] then "root" else String.mk seg
  "test_" ++ String.mk (r.method.toList.map Char.toLower) ++ "_"
    ++ sanitize_name segStr

/-- The amended name derivation: the segment is the substring of the
query-stripped **URL string** (not of its path component) after the last
`'/'`, with `"root"` when that substring is empty (URL ending in `'/'`, or
empty URL). -/
def deriveTestNameAmended (r : GenRequest) : String :=
  let beforeQ := r.url.toList.takeWhile fun c => !(c == '?')
  let seg := afterLastSlash beforeQ
  let segStr := if seg = [] then "root" else String.mk seg
  "test_" ++ String.mk (r.method.toList.map Char.toLower) ++ "_"
    ++ sanitize_name segStr

/-! ## Concrete fixtures used by witnesses and counterexamples -/

/-- Models `GET http://a/x` answered `200`. -/
def reqA : CapturedRequest where
  timestamp := "2024-01-01T00:00:00"
  method := some "GET"
  url := some "http://a/x"
  headers := [("accept", "application/json")]
  resourceType := "xhr"
  body := none
  response := some { status := some 200, statusText := "OK", headers := [], body := none }

/-- Models `GET http://a/x` answered `404`: same endpoint signature as `reqA`,
different fingerprint. -/
def reqB : CapturedRequest where
  timestamp := "2024-01-01T00:00:01"
  method := some "GET"
  url := some "http://a/x"
  headers := [("accept", "application/json")]
  resourceType := "xhr"
  body := none
  response := some { status := some 404, statusText := "Not Found", headers := [], body := none }

/-- Models `POST http://a/p` with body keys `a, b` (in that order). -/
def reqAB : CapturedRequest where
  timestamp := "2024-01-01T00:00:02"
  method := some "POST"
  url := some "http://a/p"
  headers := [("x-one", "1"), ("x-two", "2")]
  resourceType := "fetch"
  body := some (PyVal.pyDict [("a", PyVal.pyInt 1), ("b", PyVal.pyInt 2)])
  response := some { status := some 201, statusText := "Created", headers := [], body := none }

/-- Like `reqAB` but with the body keys in the order `b, a` (and a
different timestamp and header order). -/
def reqBA : CapturedRequest where
  timestamp := "2024-02-02T09:09:09"
  method := some "POST"
  url := some "http://a/p"
  headers := [("x-two", "2"), ("x-one", "1")]
  resourceType := "fetch"
  body := some (PyVal.pyDict [("b", PyVal.pyInt 2), ("a", PyVal.pyInt 1)])
  response := some { status := some 201, statusText := "Created", headers := [], body := none }

/-- Generator record whose derived base name is `test_get_users`. -/
def genUsers1 : GenRequest := { method := "GET", url := "http://a/users" }

/-- A second record with the same base name `test_get_users`. -/
def genUsers2 : GenRequest := { method := "GET", url := "http://b/users" }

/-- A record whose derived base name is `test_get_users_1` — it collides
with the suffixed name of `genUsers2`. -/
def genUsersBang : GenRequest := { method := "GET", url := "http://a/users!1" }

/-- Recorder configuration with dedupe on. -/
def cfgDedup : InterceptorConfig :=
  { hosts := ["example.com"], deduplicate := true, ignoreResourceTypes := ["image"] }

/-- Recorder configuration with dedupe off. -/
def cfgNoDedup : InterceptorConfig :=
  { hosts := ["example.com"], deduplicate := false, ignoreResourceTypes := ["image"] }

/-- Models `GET http://example.com/api/users?page=1`, fetch succeeds. -/
def evtPage1 : RouteEvent where
  timestamp := "2024-01-01T00:00:00"
  method := "GET"
  url := "http://example.com/api/users?page=1"
  headers := []
  resourceType := "xhr"
  body := none
  fetchResult := some { status := some 200, statusText := "OK", headers := [], body := none }

/-- Models `GET http://example.com/api/users?page=2`: same method and
URL-without-query as `evtPage1`. -/
def evtPage2 : RouteEvent where
  timestamp := "2024-01-01T00:00:05"
  method := "GET"
  url := "http://example.com/api/users?page=2"
  headers := []
  resourceType := "xhr"
  body := none
  fetchResult := some { status := some 200, statusText := "OK", headers := [], body := none }

/-! # Theorems -/

/-! ## Underscore-collapse lemmas -/

/-- Fact: `replaceDunder` never lengthens a string. -/
theorem replaceDunder_length_le (cs : List Char) :
    (replaceDunder cs).length ≤ cs.length := by
  induction cs using replaceDunder.induct with
  | case1 => simp [replaceDunder]
  | case2 c => simp [replaceDunder]
  | case3 c d rest h ih =>
      simp only [replaceDunder, if_pos h, List.length_cons]
      omega
  | case4 c d rest h ih =>
      simp only [List.length_cons] at ih
      simp only [replaceDunder, if_neg h, List.length_cons]
      omega

/-- Fact: `replaceDunder` strictly shortens a string containing `"__"`. -/
theorem replaceDunder_length_lt (cs : List Char) (h : hasDunder cs = true) :
    (replaceDunder cs).length < cs.length := by
  induction cs using replaceDunder.induct with
  | case1 => simp [hasDunder] at h
  | case2 c => simp [hasDunder] at h
  | case3 c d rest hp ih =>
      have := replaceDunder_length_le rest
      simp only [replaceDunder, if_pos hp, List.length_cons]
      omega
  | case4 c d rest hp ih =>
      have hr : hasDunder (d :: rest) = true := by
        simp only [hasDunder, Bool.or_eq_true, Bool.and_eq_true,
          decide_eq_true_eq] at h
        rcases h with h | h
        · exact absurd h hp
        · exact h
      have := ih hr
      simp only [List.length_cons] at this
      simp only [replaceDunder, if_neg hp, List.length_cons]
      omega

/-- The collapse loop only stops at a `"__"`-free string. -/
theorem hasDunder_collapseFuel (n : Nat) (cs : List Char) (hn : cs.length ≤ n) :
    hasDunder (collapseFuel n cs) = false := by
  induction n generalizing cs with
  | zero =>
      have hc : cs = [] := List.length_eq_zero.mp (Nat.le_zero.mp hn)
      subst hc
      rfl
  | succ n ih =>
      rw [collapseFuel]
      by_cases h : hasDunder cs
      · rw [if_pos h]
        exact ih _ (by have := replaceDunder_length_lt cs h; omega)
      · rw [if_neg h]
        simpa using h

/-- The collapsed string is `"__"`-free. -/
theorem hasDunder_collapseUnderscores (cs : List Char) :
    hasDunder (collapseUnderscores cs) = false :=
  hasDunder_collapseFuel cs.length cs le_rfl

/-! ## Change-detector loop lemmas -/

/-- Every branch of `detectStep` records the latest fingerprint in
`current_signatures`. -/
theorem detectStep_currentSignatures (cached : Store) (st : DetectState)
    (r : CapturedRequest) :
    (detectStep cached st r).currentSignatures =
      st.currentSignatures.set (generate_api_signature r) (generate_request_hash r) := by
  cases h : cached (generate_api_signature r) with
  | none => simp [detectStep, h]
  | some v =>
      by_cases he : v = generate_request_hash r <;> simp [detectStep, h, he]

/-- Fact: `detectStep` appends to `new_requests` exactly when the signature is
absent from the baseline. -/
theorem detectStep_newRequests (cached : Store) (st : DetectState)
    (r : CapturedRequest) :
    (detectStep cached st r).newRequests =
      st.newRequests ++ if isNewUnder cached r then [r] else [] := by
  cases h : cached (generate_api_signature r) with
  | none => simp [detectStep, isNewUnder, h]
  | some v =>
      by_cases he : v = generate_request_hash r <;>
        simp [detectStep, isNewUnder, h, he]

/-- Fact: `detectStep` appends to `changed_requests` exactly when the baseline
holds a different fingerprint. -/
theorem detectStep_changedRequests (cached : Store) (st : DetectState)
    (r : CapturedRequest) :
    (detectStep cached st r).changedRequests =
      st.changedRequests ++ if isChangedUnder cached r then [r] else [] := by
  cases h : cached (generate_api_signature r) with
  | none => simp [detectStep, isChangedUnder, h]
  | some v =>
      by_cases he : v = generate_request_hash r <;>
        simp [detectStep, isChangedUnder, h, he]

/-- The detector loop accumulates exactly the records whose signatures are
missing from the baseline, in order. -/
theorem foldl_detectStep_newRequests (cached : Store)
    (reqs : List CapturedRequest) (st : DetectState) :
    (reqs.foldl (detectStep cached) st).newRequests =
      st.newRequests ++ reqs.filter (isNewUnder cached) := by
  induction reqs generalizing st with
  | nil => simp
  | cons r rest ih =>
      rw [List.foldl_cons, ih, detectStep_newRequests]
      by_cases h : isNewUnder cached r <;> simp [h, List.filter_cons]

/-- The detector loop accumulates exactly the records whose baseline
fingerprint differs, in order. -/
theorem foldl_detectStep_changedRequests (cached : Store)
    (reqs : List CapturedRequest) (st : DetectState) :
    (reqs.foldl (detectStep cached) st).changedRequests =
      st.changedRequests ++ reqs.filter (isChangedUnder cached) := by
  induction reqs generalizing st with
  | nil => simp
  | cons r rest ih =>
      rw [List.foldl_cons, ih, detectStep_changedRequests]
      by_cases h : isChangedUnder cached r <;> simp [h, List.filter_cons]

/-- After the loop, `current_signatures` maps each observed signature to
the latest fingerprint seen for it. -/
theorem foldl_detectStep_currentSignatures (cached : Store)
    (reqs : List CapturedRequest) (st : DetectState) (s : String) :
    (reqs.foldl (detectStep cached) st).currentSignatures s =
      match lastHashFor reqs s with
      | some v => some v
      | none => st.currentSignatures s := by
  induction reqs generalizing st with
  | nil => simp [lastHashFor]
  | cons r rest ih =>
      rw [List.foldl_cons, ih, detectStep_currentSignatures]
      cases hl : lastHashFor rest s with
      | some v => simp [lastHashFor, hl]
      | none =>
          simp only [lastHashFor, hl, Store.set]
          by_cases hs : generate_api_signature r = s
          · rw [if_pos hs.symm, if_pos hs]
          · rw [if_neg (fun hss => hs hss.symm), if_neg hs]

/-- The returned `new_requests` list of a run. -/
theorem detect_changes_newRequests (cached : Store) (reqs : List CapturedRequest) :
    (detect_changes cached reqs).newRequests = reqs.filter (isNewUnder cached) := by
  unfold detect_changes
  simpa using foldl_detectStep_newRequests cached reqs ⟨[], [], Store.empty⟩

/-- The returned `changed_requests` list of a run. -/
theorem detect_changes_changedRequests (cached : Store) (reqs : List CapturedRequest) :
    (detect_changes cached reqs).changedRequests = reqs.filter (isChangedUnder cached) := by
  unfold detect_changes
  simpa using foldl_detectStep_changedRequests cached reqs ⟨[], [], Store.empty⟩

/-- Fact: `has_changes` is the nonemptiness of the two result lists. -/
theorem detect_changes_hasChanges (cached : Store) (reqs : List CapturedRequest) :
    (detect_changes cached reqs).hasChanges =
      (!(reqs.filter (isNewUnder cached)).isEmpty
        || !(reqs.filter (isChangedUnder cached)).isEmpty) := by
  have hn := foldl_detectStep_newRequests cached reqs ⟨[], [], Store.empty⟩
  have hc := foldl_detectStep_changedRequests cached reqs ⟨[], [], Store.empty⟩
  unfold detect_changes
  simp only [hn, hc, List.nil_append]
  cases h1 : reqs.filter (isNewUnder cached) <;>
    cases h2 : reqs.filter (isChangedUnder cached) <;> simp

/-- On a run with changes, the kept (and saved) baseline maps every
observed signature to its latest fingerprint and every other signature to
its old value. -/
theorem detect_changes_cachedAfter_pos (cached : Store)
    (reqs : List CapturedRequest) (s : String)
    (h : (detect_changes cached reqs).hasChanges = true) :
    (detect_changes cached reqs).cachedAfter s =
      match lastHashFor reqs s with
      | some v => some v
      | none => cached s := by
  have hcur := foldl_detectStep_currentSignatures cached reqs ⟨[], [], Store.empty⟩ s
  simp only [detect_changes] at h ⊢
  rw [if_pos h]
  simp only [Store.updateWith, hcur]
  cases lastHashFor reqs s <;> rfl

/-- On a run without changes, the baseline is untouched. -/
theorem detect_changes_cachedAfter_neg (cached : Store)
    (reqs : List CapturedRequest)
    (h : (detect_changes cached reqs).hasChanges = false) :
    (detect_changes cached reqs).cachedAfter = cached := by
  simp only [detect_changes] at h ⊢
  rw [if_neg (by simp [h])]

/-- Fact: `saved` mirrors `has_changes`. -/
theorem detect_changes_saved (cached : Store) (reqs : List CapturedRequest) :
    (detect_changes cached reqs).saved = (detect_changes cached reqs).hasChanges := by
  unfold detect_changes
  simp

/-! ## `lastHashFor` lemmas -/

/-- A latest fingerprint comes from some record of the batch with the
right signature. -/
theorem lastHashFor_eq_some (reqs : List CapturedRequest) (s : String)
    (v : String) (h : lastHashFor reqs s = some v) :
    ∃ r' ∈ reqs, generate_api_signature r' = s ∧ v = generate_request_hash r' := by
  induction reqs with
  | nil => simp [lastHashFor] at h
  | cons a rest ih =>
      rw [lastHashFor] at h
      cases hl : lastHashFor rest s with
      | some w =>
          rw [hl] at h
          obtain ⟨r', hr', hs', hv⟩ := ih (by rw [hl, ← h])
          exact ⟨r', List.mem_cons_of_mem a hr', hs', hv⟩
      | none =>
          rw [hl] at h
          by_cases hs : generate_api_signature a = s
          · rw [if_pos hs] at h
            exact ⟨a, List.mem_cons_self a rest, hs, (Option.some.injEq _ _ ▸ h).symm⟩
          · rw [if_neg hs] at h
            cases h

/-- A signature occurring in the batch has a latest fingerprint. -/
theorem lastHashFor_isSome (reqs : List CapturedRequest)
    (r : CapturedRequest) (hr : r ∈ reqs) :
    (lastHashFor reqs (generate_api_signature r)).isSome = true := by
  induction reqs with
  | nil => cases hr
  | cons a rest ih =>
      rw [lastHashFor]
      cases hl : lastHashFor rest (generate_api_signature r) with
      | some w => rfl
      | none =>
          rcases List.mem_cons.mp hr with rfl | hr'
          · rw [if_pos rfl]
            rfl
          · have := ih hr'
            rw [hl] at this
            cases this

/-- A signature absent from the batch has no latest fingerprint. -/
theorem lastHashFor_eq_none (reqs : List CapturedRequest) (s : String)
    (h : ∀ r ∈ reqs, generate_api_signature r ≠ s) :
    lastHashFor reqs s = none := by
  induction reqs with
  | nil => rfl
  | cons a rest ih =>
      rw [lastHashFor, ih (fun r hr => h r (List.mem_cons_of_mem a hr)),
        if_neg (h a (List.mem_cons_self a rest))]

/-- When every record carries signature `s`, the latest fingerprint is the
hash of the last record. -/
theorem lastHashFor_of_all (reqs : List CapturedRequest) (s : String)
    (h : ∀ r ∈ reqs, generate_api_signature r = s) :
    lastHashFor reqs s = reqs.getLast?.map generate_request_hash := by
  induction reqs with
  | nil => rfl
  | cons a rest ih =>
      rw [lastHashFor, ih (fun r hr => h r (List.mem_cons_of_mem a hr))]
      cases rest with
      | nil => simp [h a (List.mem_cons_self a [])]
      | cons b tl =>
          rw [List.getLast?_cons_cons]
          have hne : (b :: tl).getLast? ≠ none := by
            simp [List.getLast?_eq_none_iff]
          cases hgl : (b :: tl).getLast? with
          | none => exact absurd hgl hne
          | some x => rfl

/-! ## Claim C1 -/

/-- Claim C1, counterexample. Two records with the same signature
(`GET:/x`) but different fingerprints (status `200` vs `404`): the first
run writes the fingerprint of `reqB` as the baseline entry, so the second
run on the very same batch classifies `reqA` as changed and reports
`hasChanges = true`, refuting the claimed idempotence. -/
theorem detect_changes_not_idempotent :
    (detect_changes (detect_changes Store.empty [reqA, reqB]).cachedAfter
      [reqA, reqB]).hasChanges = true := by
  decide

/-- Claim C1 (amended). Idempotence of change detection holds for batches in
which records sharing a signature also share a fingerprint (in particular
for batches with pairwise distinct signatures): rerunning `detect_changes`
on the same batch against the baseline state left by the first run yields
`hasChanges = false`. -/
theorem detect_changes_idempotent_of_consistent (cached : Store)
    (reqs : List CapturedRequest)
    (hcons : ∀ r1 ∈ reqs, ∀ r2 ∈ reqs,
      generate_api_signature r1 = generate_api_signature r2 →
      generate_request_hash r1 = generate_request_hash r2) :
    (detect_changes (detect_changes cached reqs).cachedAfter reqs).hasChanges = false := by
  by_cases h1 : (detect_changes cached reqs).hasChanges
  · have hmem : ∀ r ∈ reqs,
        (detect_changes cached reqs).cachedAfter (generate_api_signature r) =
          some (generate_request_hash r) := by
      intro r hr
      rw [detect_changes_cachedAfter_pos cached reqs _ h1]
      obtain ⟨v, hv⟩ := Option.isSome_iff_exists.mp (lastHashFor_isSome reqs r hr)
      obtain ⟨r', hr', hs', hveq⟩ := lastHashFor_eq_some reqs _ v hv
      rw [hv, hveq, hcons r' hr' r hr hs']
    rw [detect_changes_hasChanges]
    have hnew : reqs.filter (isNewUnder ((detect_changes cached reqs).cachedAfter)) = [] := by
      rw [List.filter_eq_nil_iff]
      intro r hr
      simp [isNewUnder, hmem r hr]
    have hch : reqs.filter (isChangedUnder ((detect_changes cached reqs).cachedAfter)) = [] := by
      rw [List.filter_eq_nil_iff]
      intro r hr
      simp [isChangedUnder, hmem r hr]
    simp [hnew, hch]
  · rw [Bool.not_eq_true] at h1
    rw [detect_changes_cachedAfter_neg cached reqs h1]
    exact h1

/-- Claim C1, witness. A singleton batch trivially satisfies the consistency
hypothesis; the second run reports no changes. -/
theorem detect_changes_idempotent_witness :
    (detect_changes (detect_changes Store.empty [reqA]).cachedAfter
      [reqA]).hasChanges = false := by
  apply detect_changes_idempotent_of_consistent
  intro r1 h1 r2 h2 _
  rw [List.mem_singleton] at h1 h2
  rw [h1, h2]

/-! ## Claim C5 -/

/-- Claim C5. The baseline file is overwritten exactly when `hasChanges` is
true; the written contents map every signature observed in the batch
(including unchanged ones) to its latest fingerprint and keep the old
entry for every other signature; and on a run without changes the
on-disk baseline is untouched. -/
theorem detect_changes_baseline_write (cached : Store)
    (reqs : List CapturedRequest) :
    ((detect_changes cached reqs).saved = (detect_changes cached reqs).hasChanges)
    ∧ ((detect_changes cached reqs).saved = true →
        ∀ s : String,
          ((∃ r ∈ reqs, generate_api_signature r = s) →
            (detect_changes cached reqs).cachedAfter s = lastHashFor reqs s)
          ∧ ((∀ r ∈ reqs, generate_api_signature r ≠ s) →
            (detect_changes cached reqs).cachedAfter s = cached s))
    ∧ ((detect_changes cached reqs).saved = false →
        ∀ s : String, (detect_changes cached reqs).cachedAfter s = cached s) := by
  refine ⟨detect_changes_saved cached reqs, ?_, ?_⟩
  · intro hsv s
    rw [detect_changes_saved] at hsv
    constructor
    · rintro ⟨r, hr, rfl⟩
      rw [detect_changes_cachedAfter_pos cached reqs _ hsv]
      obtain ⟨v, hv⟩ := Option.isSome_iff_exists.mp (lastHashFor_isSome reqs r hr)
      rw [hv]
    · intro habs
      rw [detect_changes_cachedAfter_pos cached reqs _ hsv,
        lastHashFor_eq_none reqs s habs]
  · intro hsv s
    rw [detect_changes_saved] at hsv
    rw [detect_changes_cachedAfter_neg cached reqs hsv]

/-- Claim C5, witness. A fresh baseline and one `GET /x` record: the run
saves, the observed signature gets its latest fingerprint, the unrelated
old key keeps its value. -/
theorem detect_changes_baseline_write_witness :
    ((detect_changes Store.empty [reqA]).saved = true)
    ∧ (detect_changes Store.empty [reqA]).cachedAfter "GET:/x" = lastHashFor [reqA] "GET:/x"
    ∧ (detect_changes Store.empty [reqA]).cachedAfter "POST:/other" = Store.empty "POST:/other" := by
  have hsv : (detect_changes Store.empty [reqA]).saved = true := by decide
  refine ⟨hsv, ?_, ?_⟩
  · exact ((detect_changes_baseline_write Store.empty [reqA]).2.1 hsv "GET:/x").1
      ⟨reqA, List.mem_singleton_self reqA, by decide⟩
  · exact ((detect_changes_baseline_write Store.empty [reqA]).2.1 hsv "POST:/other").2
      (by decide)

/-! ## Claim C10 -/

/-- Claim C10. Records are classified against the baseline as it stood at
the start of the run: in a batch whose records all share one signature
absent from the baseline, every record (duplicates included) is reported
new, and the resulting baseline keeps only the last record's fingerprint
for that signature. -/
theorem detect_changes_duplicates_all_new (cached : Store)
    (reqs : List CapturedRequest) (s : String)
    (hall : ∀ r ∈ reqs, generate_api_signature r = s)
    (habs : cached s = none) :
    (detect_changes cached reqs).newRequests = reqs
    ∧ (detect_changes cached reqs).cachedAfter s =
        reqs.getLast?.map generate_request_hash := by
  have hfil : reqs.filter (isNewUnder cached) = reqs := by
    rw [List.filter_eq_self]
    intro r hr
    simp [isNewUnder, hall r hr, habs]
  have hnew : (detect_changes cached reqs).newRequests = reqs := by
    rw [detect_changes_newRequests, hfil]
  refine ⟨hnew, ?_⟩
  by_cases hhcb : (detect_changes cached reqs).hasChanges = true
  · rw [detect_changes_cachedAfter_pos cached reqs s hhcb,
      lastHashFor_of_all reqs s hall]
    cases reqs.getLast? with
    | none => exact habs
    | some x => rfl
  · rw [Bool.not_eq_true] at hhcb
    have hempty : reqs = [] := by
      rw [detect_changes_hasChanges, hfil] at hhcb
      have hbe : (!reqs.isEmpty) = false := (Bool.or_eq_false_iff.mp hhcb).1
      simpa using hbe
    subst hempty
    rw [detect_changes_cachedAfter_neg cached [] hhcb, habs]
    rfl

/-- Claim C10, witness. Two records sharing signature `GET:/x` against an
empty baseline: both are reported new and the baseline keeps the last
record's fingerprint. -/
theorem detect_changes_duplicates_all_new_witness :
    (detect_changes Store.empty [reqA, reqB]).newRequests = [reqA, reqB]
    ∧ (detect_changes Store.empty [reqA, reqB]).cachedAfter "GET:/x" =
        [reqA, reqB].getLast?.map generate_request_hash :=
  detect_changes_duplicates_all_new Store.empty [reqA, reqB] "GET:/x"
    (by decide) rfl

/-! ## Character lemmas (ASCII case mapping) -/

/-- Fact: `Char.ofNat` round-trips on the printable range used here. -/
theorem char_toNat_ofNat (m : Nat) (h1 : 48 ≤ m) (h2 : m ≤ 122) :
    (Char.ofNat m).toNat = m := by
  interval_cases m <;> decide

/-- Fact: `Char.isUpper` via code points. -/
theorem isUpper_iff_toNat (c : Char) :
    c.isUpper = true ↔ 65 ≤ c.toNat ∧ c.toNat ≤ 90 := by
  simp only [Char.isUpper, Bool.and_eq_true, decide_eq_true_eq]
  exact Iff.rfl

/-- Fact: `Char.isLower` via code points. -/
theorem isLower_iff_toNat (c : Char) :
    c.isLower = true ↔ 97 ≤ c.toNat ∧ c.toNat ≤ 122 := by
  simp only [Char.isLower, Bool.and_eq_true, decide_eq_true_eq]
  exact Iff.rfl

/-- Fact: `Char.isDigit` via code points. -/
theorem isDigit_iff_toNat (c : Char) :
    c.isDigit = true ↔ 48 ≤ c.toNat ∧ c.toNat ≤ 57 := by
  simp only [Char.isDigit, Bool.and_eq_true, decide_eq_true_eq]
  exact Iff.rfl

/-- Lower-casing an upper-case letter adds 32 to the code point. -/
theorem toLower_toNat_of_upper (c : Char) (h1 : 65 ≤ c.toNat) (h2 : c.toNat ≤ 90) :
    (Char.toLower c).toNat = c.toNat + 32 := by
  unfold Char.toLower
  rw [if_pos ⟨h1, h2⟩]
  exact char_toNat_ofNat _ (by omega) (by omega)

/-- Lower-casing fixes everything that is not an upper-case letter. -/
theorem toLower_eq_self (c : Char) (h : ¬(65 ≤ c.toNat ∧ c.toNat ≤ 90)) :
    Char.toLower c = c := by
  unfold Char.toLower
  rw [if_neg h]

/-- Lower-casing maps only the underscore to the underscore. -/
theorem toLower_underscore_iff (c : Char) : Char.toLower c = '_' ↔ c = '_' := by
  constructor
  · intro h
    by_cases hc : 65 ≤ c.toNat ∧ c.toNat ≤ 90
    · have h32 := toLower_toNat_of_upper c hc.1 hc.2
      rw [h] at h32
      have h95 : ('_' : Char).toNat = 95 := rfl
      omega
    · rwa [toLower_eq_self c hc] at h
  · intro h
    subst h
    rfl

/-- Lower-casing a letter yields a lower-case letter. -/
theorem toLower_of_alpha (c : Char) (h : c.isAlpha = true) :
    97 ≤ (Char.toLower c).toNat ∧ (Char.toLower c).toNat ≤ 122 := by
  rcases Bool.or_eq_true _ _ ▸ h with hu | hl
  · obtain ⟨h1, h2⟩ := (isUpper_iff_toNat c).mp hu
    rw [toLower_toNat_of_upper c h1 h2]
    omega
  · obtain ⟨h1, h2⟩ := (isLower_iff_toNat c).mp hl
    rw [toLower_eq_self c (by omega)]
    omega

/-- Lower-casing an identifier character lands in
lower-case-letter/digit/underscore. -/
theorem toLower_of_sanitized (c : Char) (h : c.isAlphanum = true ∨ c = '_') :
    (97 ≤ (Char.toLower c).toNat ∧ (Char.toLower c).toNat ≤ 122)
    ∨ (48 ≤ (Char.toLower c).toNat ∧ (Char.toLower c).toNat ≤ 57)
    ∨ Char.toLower c = '_' := by
  rcases h with h | rfl
  · rcases Bool.or_eq_true _ _ ▸ h with ha | hd
    · exact Or.inl (toLower_of_alpha c ha)
    · obtain ⟨h1, h2⟩ := (isDigit_iff_toNat c).mp hd
      rw [toLower_eq_self c (by omega)]
      exact Or.inr (Or.inl ⟨h1, h2⟩)
  · exact Or.inr (Or.inr rfl)

/-! ## Membership and `"__"`-freeness through the sanitizer stages -/

/-- Fact: `replaceDunder` emits only characters of its input. -/
theorem mem_replaceDunder (cs : List Char) (c : Char) (h : c ∈ replaceDunder cs) :
    c ∈ cs := by
  induction cs using replaceDunder.induct with
  | case1 => simpa [replaceDunder] using h
  | case2 d => simpa [replaceDunder] using h
  | case3 x d rest hp ih =>
      rw [replaceDunder, if_pos hp] at h
      rcases List.mem_cons.mp h with rfl | h'
      · simp [hp.1]
      · simp [ih h']
  | case4 x d rest hp ih =>
      rw [replaceDunder, if_neg hp] at h
      rcases List.mem_cons.mp h with rfl | h'
      · simp
      · simp [ih h']

/-- The collapse loop emits only characters of its input. -/
theorem mem_collapseFuel (n : Nat) (cs : List Char) (c : Char)
    (h : c ∈ collapseFuel n cs) : c ∈ cs := by
  induction n generalizing cs with
  | zero => simpa [collapseFuel] using h
  | succ n ih =>
      rw [collapseFuel] at h
      by_cases hd : hasDunder cs
      · rw [if_pos hd] at h
        exact mem_replaceDunder cs c (ih _ h)
      · rwa [if_neg hd] at h

/-- The stripped string is an infix of its input. -/
theorem stripUnderscores_isInfix (cs : List Char) : stripUnderscores cs <:+: cs := by
  unfold stripUnderscores
  have h1 : List.dropWhile (fun c => c == '_') cs <:+ cs := List.dropWhile_suffix _
  have h2 : List.dropWhile (fun c => c == '_')
      (List.dropWhile (fun c => c == '_') cs).reverse <:+
      (List.dropWhile (fun c => c == '_') cs).reverse := List.dropWhile_suffix _
  have h3 : (List.dropWhile (fun c => c == '_')
      (List.dropWhile (fun c => c == '_') cs).reverse).reverse <+:
      List.dropWhile (fun c => c == '_') cs := by
    rw [← List.reverse_suffix]
    simpa using h2
  exact h3.isInfix.trans h1.isInfix
/-- Fact: `'__' in s` says exactly that `"__"` is an infix. -/
theorem hasDunder_iff_isInfix (cs : List Char) :
    hasDunder cs = true ↔ ['_', '_'] <:+: cs := by
  induction cs using hasDunder.induct with
  | case1 =>
      simp only [hasDunder]
      constructor
      · intro h; cases h
      · intro h
        have := h.sublist.length_le
        simp at this
  | case2 d =>
      simp only [hasDunder]
      constructor
      · intro h; cases h
      · intro h
        have := h.sublist.length_le
        simp at this
  | case3 c d rest ih =>
      rw [hasDunder]
      constructor
      · intro h
        rcases Bool.or_eq_true _ _ ▸ h with h' | h'
        · obtain ⟨hc, hd⟩ := Bool.and_eq_true _ _ ▸ h'
          rw [decide_eq_true_eq] at hc hd
          subst hc
          subst hd
          exact ⟨[], rest, rfl⟩
        · exact List.IsInfix.trans (ih.mp h') ⟨[c], [], by simp⟩
      · intro h
        rcases List.infix_cons_iff.mp h with hp | hi
        · obtain ⟨hc, hp'⟩ := List.cons_prefix_cons.mp hp
          obtain ⟨hd, _⟩ := List.cons_prefix_cons.mp hp'
          subst hc
          subst hd
          simp
        · rw [Bool.or_eq_true, ih]
          exact Or.inr hi

/-- An infix of a `"__"`-free string is `"__"`-free. -/
theorem hasDunder_of_isInfix (l l' : List Char) (h : hasDunder l = false)
    (hinf : l' <:+: l) : hasDunder l' = false := by
  by_contra hc
  rw [Bool.not_eq_false, hasDunder_iff_isInfix] at hc
  rw [← Bool.not_eq_true, hasDunder_iff_isInfix] at h
  exact h (hc.trans hinf)

/-- The head of a `dropWhile` fails the predicate. -/
theorem head?_dropWhile_false (p : α → Bool) (l : List α) (x : α)
    (h : (List.dropWhile p l).head? = some x) : p x = false := by
  have := List.head?_dropWhile_not p l
  rw [h] at this
  exact this

/-- A nonempty prefix has the same head. -/
theorem IsPrefix_head? {l₁ l₂ : List α} (h : l₁ <+: l₂) (hne : l₁ ≠ []) :
    l₂.head? = l₁.head? := by
  obtain ⟨t, rfl⟩ := h
  cases l₁ with
  | nil => exact absurd rfl hne
  | cons a l => rfl

/-- The stripped string does not start with an underscore. -/
theorem stripUnderscores_head? (cs : List Char) :
    (stripUnderscores cs).head? ≠ some '_' := by
  intro h
  have hne : stripUnderscores cs ≠ [] := by
    intro he
    rw [he] at h
    cases h
  have hpre : stripUnderscores cs <+: List.dropWhile (fun c => c == '_') cs := by
    unfold stripUnderscores
    rw [← List.reverse_suffix]
    simpa using List.dropWhile_suffix (l := (List.dropWhile (fun c => c == '_') cs).reverse)
      (fun c => c == '_')
  have hh := IsPrefix_head? hpre hne
  rw [h] at hh
  have := head?_dropWhile_false _ _ _ hh
  simp at this

/-- The stripped string does not end with an underscore. -/
theorem stripUnderscores_getLast? (cs : List Char) :
    (stripUnderscores cs).getLast? ≠ some '_' := by
  intro h
  unfold stripUnderscores at h
  rw [List.getLast?_reverse] at h
  have := head?_dropWhile_false _ _ _ h
  simp at this

/-- Fact: `"__"`-freeness of a concatenation: no double underscore inside either
part and none across the seam. -/
theorem hasDunder_append (l₁ l₂ : List Char) :
    hasDunder (l₁ ++ l₂) =
      (hasDunder l₁ || hasDunder l₂ ||
        (decide (l₁.getLast? = some '_') && decide (l₂.head? = some '_'))) := by
  induction l₁ using hasDunder.induct with
  | case1 => simp [hasDunder]
  | case2 c =>
      cases l₂ with
      | nil => simp [hasDunder]
      | cons y tl =>
          simp only [List.singleton_append, hasDunder, List.getLast?_singleton,
            List.head?_cons, Option.some.injEq]
          by_cases hc : c = '_' <;> by_cases hy : y = '_' <;> simp [hc, hy]
  | case3 c d rest ih =>
      simp only [List.cons_append] at ih ⊢
      rw [hasDunder, hasDunder, ih, List.getLast?_cons_cons]
      by_cases hc : c = '_' <;> by_cases hd : d = '_' <;>
        simp [hc, hd, Bool.or_assoc]

/-- Prefixing `test_` to a `"__"`-free string that does not start with an
underscore stays `"__"`-free. -/
theorem hasDunder_test_prepend (s3 : List Char) (hh : s3.head? ≠ some '_')
    (hd : hasDunder s3 = false) :
    hasDunder ('t' :: 'e' :: 's' :: 't' :: '_' :: s3) = false := by
  have := hasDunder_append ['t', 'e', 's', 't', '_'] s3
  simp only [List.cons_append, List.nil_append] at this
  rw [this, hd, show hasDunder ['t', 'e', 's', 't', '_'] = false from rfl]
  simp [hh]

/-- Lower-casing neither creates nor removes `"__"`. -/
theorem hasDunder_map_toLower (cs : List Char) :
    hasDunder (cs.map Char.toLower) = hasDunder cs := by
  induction cs using hasDunder.induct with
  | case1 => rfl
  | case2 d => rfl
  | case3 c d rest ih =>
      simp only [List.map_cons] at ih ⊢
      rw [hasDunder, hasDunder]
      rw [ih]
      by_cases hc : c = '_' <;> by_cases hd : d = '_' <;>
        simp [hc, hd, toLower_underscore_iff,
          (toLower_underscore_iff c).not, (toLower_underscore_iff d).not]

/-- Properties of the sanitizer pipeline after the character-replacement
stage, for any character list whose entries are alphanumeric or
underscore. -/
theorem sanitize_tail_props (l0 : List Char)
    (hA : ∀ c ∈ l0, c.isAlphanum = true ∨ c = '_') :
    let s3 := stripUnderscores (collapseUnderscores l0)
    let s4 := if s3 ≠ [] ∧ ¬(s3.headI.isAlpha) then
      't' :: 'e' :: 's' :: 't' :: '_' :: s3 else s3
    let out := s4.map Char.toLower
    (∀ c ∈ out, (97 ≤ c.toNat ∧ c.toNat ≤ 122) ∨ (48 ≤ c.toNat ∧ c.toNat ≤ 57)
        ∨ c = '_')
    ∧ hasDunder out = false
    ∧ out.head? ≠ some '_'
    ∧ out.getLast? ≠ some '_'
    ∧ (out = [] ∨ ∃ c, out.head? = some c ∧ 97 ≤ c.toNat ∧ c.toNat ≤ 122) := by
  intro s3 s4 out
  have hB : ∀ c ∈ s3, c.isAlphanum = true ∨ c = '_' := by
    intro c hc
    exact hA c (mem_collapseFuel _ _ _
      (List.Sublist.mem hc (stripUnderscores_isInfix _).sublist))
  have hD : hasDunder s3 = false :=
    hasDunder_of_isInfix _ _ (hasDunder_collapseUnderscores _) (stripUnderscores_isInfix _)
  have hE : s3.head? ≠ some '_' := stripUnderscores_head? _
  have hF : s3.getLast? ≠ some '_' := stripUnderscores_getLast? _
  have hs4d : s4 = if s3 ≠ [] ∧ ¬(s3.headI.isAlpha) then
      't' :: 'e' :: 's' :: 't' :: '_' :: s3 else s3 := rfl
  have houtd : out = s4.map Char.toLower := rfl
  have hG : hasDunder s4 = false := by
    rw [hs4d]
    split
    · exact hasDunder_test_prepend s3 hE hD
    · exact hD
  have hH : ∀ c ∈ s4, c.isAlphanum = true ∨ c = '_' := by
    rw [hs4d]
    split
    · intro c hc
      rcases List.mem_cons.mp hc with rfl | hc
      · left; decide
      rcases List.mem_cons.mp hc with rfl | hc
      · left; decide
      rcases List.mem_cons.mp hc with rfl | hc
      · left; decide
      rcases List.mem_cons.mp hc with rfl | hc
      · left; decide
      rcases List.mem_cons.mp hc with rfl | hc
      · right; rfl
      exact hB c hc
    · exact hB
  have hJ : s4.getLast? = s3.getLast? := by
    rw [hs4d]
    split
    · rename_i hcond
      exact List.getLast?_append_of_ne_nil ['t', 'e', 's', 't', '_'] hcond.1
    · rfl
  refine ⟨?_, ?_, ?_, ?_, ?_⟩
  · intro c hc
    rw [houtd] at hc
    obtain ⟨x, hx, rfl⟩ := List.mem_map.mp hc
    exact toLower_of_sanitized x (hH x hx)
  · rw [houtd, hasDunder_map_toLower]
    exact hG
  · rw [houtd, List.head?_map]
    intro hcontra
    cases hhd : s4.head? with
    | none => rw [hhd] at hcontra; cases hcontra
    | some x =>
        rw [hhd] at hcontra
        have hx : Char.toLower x = '_' := by
          simpa using hcontra
        rw [toLower_underscore_iff] at hx
        subst hx
        rw [hs4d] at hhd
        revert hhd
        split
        · intro hhd
          cases hhd
        · intro hhd
          exact hE hhd
  · rw [houtd, List.getLast?_map, hJ]
    intro hcontra
    cases hgl : s3.getLast? with
    | none => rw [hgl] at hcontra; cases hcontra
    | some x =>
        rw [hgl] at hcontra
        have hx : Char.toLower x = '_' := by
          simpa using hcontra
        rw [toLower_underscore_iff] at hx
        subst hx
        exact hF hgl
  · cases hs3c : s3 with
    | nil =>
        left
        rw [houtd, hs4d, hs3c]
        simp
    | cons a tl =>
        right
        by_cases hcond : s3 ≠ [] ∧ ¬(s3.headI.isAlpha)
        · refine ⟨'t', ?_, by decide, by decide⟩
          rw [houtd, hs4d, if_pos hcond, List.map_cons, List.head?_cons]
          rfl
        · have hne : s3 ≠ [] := by rw [hs3c]; simp
          have halpha : s3.headI.isAlpha = true := by
            by_contra hna
            exact hcond ⟨hne, hna⟩
          rw [hs3c, List.headI_cons] at halpha
          refine ⟨Char.toLower a, ?_, toLower_of_alpha a halpha⟩
          rw [houtd, hs4d, if_neg hcond, hs3c, List.map_cons, List.head?_cons]

/-! ## Claim C2 -/

/-- Claim C2, counterexample. `_sanitize_name` maps the empty string to the
empty string: the `if sanitized and ...` guard skips the prefix token on an
empty intermediate result, refuting "never returns an empty string — empty
input yields the prefix token". -/
theorem sanitize_name_empty : sanitize_name "" = "" := rfl

/-- Claim C2 (amended). `_sanitize_name` is deterministic and total, and for
every input the output consists of lower-case letters, digits and
underscores only, has no consecutive underscores, neither starts nor ends
with an underscore, and starts with a (lower-case) letter whenever it is
nonempty — but it *can* be empty: inputs whose characters are all
non-alphanumeric (in particular the empty string, which the claim said
yields the prefix token) produce the empty string. -/
theorem sanitize_name_characterization :
    (∀ s : String, ∀ c ∈ (sanitize_name s).toList,
        (97 ≤ c.toNat ∧ c.toNat ≤ 122) ∨ (48 ≤ c.toNat ∧ c.toNat ≤ 57) ∨ c = '_')
    ∧ (∀ s : String, hasDunder (sanitize_name s).toList = false)
    ∧ (∀ s : String, (sanitize_name s).toList.head? ≠ some '_')
    ∧ (∀ s : String, (sanitize_name s).toList.getLast? ≠ some '_')
    ∧ (∀ s : String, sanitize_name s = ""
        ∨ ∃ c, (sanitize_name s).toList.head? = some c ∧ 97 ≤ c.toNat ∧ c.toNat ≤ 122)
    ∧ sanitize_name "" = "" := by
  have main : ∀ s : String,
      (∀ c ∈ (sanitize_name s).toList,
        (97 ≤ c.toNat ∧ c.toNat ≤ 122) ∨ (48 ≤ c.toNat ∧ c.toNat ≤ 57) ∨ c = '_')
      ∧ hasDunder (sanitize_name s).toList = false
      ∧ (sanitize_name s).toList.head? ≠ some '_'
      ∧ (sanitize_name s).toList.getLast? ≠ some '_'
      ∧ (sanitize_name s = ""
        ∨ ∃ c, (sanitize_name s).toList.head? = some c ∧ 97 ≤ c.toNat ∧ c.toNat ≤ 122) := by
    intro s
    have hA : ∀ c ∈ s.toList.map
        (fun c => if c.isAlphanum || c == '_' then c else '_'),
        c.isAlphanum = true ∨ c = '_' := by
      intro c hc
      obtain ⟨x, _, rfl⟩ := List.mem_map.mp hc
      by_cases hcond : (x.isAlphanum || x == '_') = true
      · rw [if_pos hcond]
        rcases Bool.or_eq_true _ _ ▸ hcond with h | h
        · exact Or.inl h
        · exact Or.inr (by simpa using h)
      · rw [if_neg hcond]
        exact Or.inr rfl
    have h := sanitize_tail_props _ hA
    obtain ⟨h1, h2, h3, h4, h5⟩ := h
    refine ⟨h1, h2, h3, h4, ?_⟩
    rcases h5 with h5 | h5
    · left
      have : (sanitize_name s).toList = [] := h5
      cases hs : sanitize_name s with
      | mk data =>
          rw [hs] at this
          rw [show ("" : String) = String.mk [] from rfl]
          exact congrArg String.mk this
    · right
      exact h5
  exact ⟨fun s => (main s).1, fun s => (main s).2.1, fun s => (main s).2.2.1,
    fun s => (main s).2.2.2.1, fun s => (main s).2.2.2.2, rfl⟩

/-- Claim C2, witness. The spec's own scenario: the sanitized form of
`"GET /api/v2!!items"` is `"get_api_v2_items"`, whose characters,
underscore structure and leading letter instantiate the characterization. -/
theorem sanitize_name_characterization_witness :
    sanitize_name "GET /api/v2!!items" = "get_api_v2_items"
    ∧ ((97 ≤ ('g' : Char).toNat ∧ ('g' : Char).toNat ≤ 122)
        ∨ (48 ≤ ('g' : Char).toNat ∧ ('g' : Char).toNat ≤ 57) ∨ ('g' : Char) = '_')
    ∧ hasDunder (sanitize_name "GET /api/v2!!items").toList = false := by
  refine ⟨by decide, ?_, sanitize_name_characterization.2.1 "GET /api/v2!!items"⟩
  exact sanitize_name_characterization.1 "GET /api/v2!!items" 'g' (by decide)

/-! ## Claim C3 -/

/-- The right-to-left scan `reverse ∘ takeWhile ∘ reverse` used by
`_extract_test_name` computes the suffix after the last slash. -/
theorem reverse_takeWhile_eq_afterLastSlash (l : List Char) :
    (l.reverse.takeWhile fun c => !(c == '/')).reverse = afterLastSlash l := by
  induction l using List.reverseRecOn with
  | nil => rfl
  | append_singleton ys x ih =>
      rw [List.reverse_append, List.reverse_singleton, List.singleton_append,
        List.takeWhile_cons, afterLastSlash, List.foldl_append]
      by_cases hx : x = '/'
      · rw [hx]
        simp [afterLastSlash]
      · rw [if_pos (by simp [hx]), List.reverse_cons, ih]
        simp [afterLastSlash, hx]

/-- Claim C3, counterexample. For `GET http://a/users/` the code derives
`test_get_root` — `url.split('/')[-1]` is the (empty) substring after the
trailing slash, not the last non-empty path segment `users` the claim
prescribes, which would give `test_get_users`. -/
theorem extract_test_name_trailing_slash :
    extract_test_name { method := "GET", url := "http://a/users/" } = "test_get_root"
    ∧ deriveTestNameSpec { method := "GET", url := "http://a/users/" } = "test_get_users"
    ∧ extract_test_name { method := "GET", url := "http://a/users/" } ≠
        deriveTestNameSpec { method := "GET", url := "http://a/users/" } :=
  ⟨by decide, by decide, by decide⟩

/-- Claim C3 (amended). For every record the derived test name is
`"test_" + lowercased method + "_" + sanitizeIdentifier(seg)` where `seg`
is the substring of the query-stripped URL **string** after its last `/`
(so it can be a host, and is empty — hence `"root"` — exactly when the URL
ends in a slash or is empty), not the last non-empty segment of the URL's
path component. -/
theorem extract_test_name_spec (r : GenRequest) :
    extract_test_name r = deriveTestNameAmended r := by
  unfold extract_test_name deriveTestNameAmended lastSegment
  simp only [reverse_takeWhile_eq_afterLastSlash]

/-! ## Claim C4 -/

/-- Fact: `digitsVal` with an arbitrary accumulator. -/
theorem digitsVal_append (cs : List Char) (d : Char) :
    digitsVal (cs ++ [d]) = 10 * digitsVal cs + (d.toNat - 48) := by
  unfold digitsVal
  rw [List.foldl_append]
  rfl

/-- Fact: `natDigitsFuel` computes a decimal representation: evaluating it back
returns the number (for sufficient fuel). -/
theorem digitsVal_natDigitsFuel (fuel n : Nat) (h : n < fuel) :
    digitsVal (natDigitsFuel fuel n) = n := by
  induction fuel generalizing n with
  | zero => omega
  | succ fuel ih =>
      rw [natDigitsFuel]
      by_cases hn : n < 10
      · rw [if_pos hn]
        show 10 * 0 + ((Char.ofNat (48 + n)).toNat - 48) = n
        rw [char_toNat_ofNat (48 + n) (by omega) (by omega)]
        omega
      · rw [if_neg hn, digitsVal_append,
          ih (n / 10) (by omega),
          char_toNat_ofNat (48 + n % 10) (by omega) (by omega)]
        omega

/-- Decimal value of the digits of `n`. -/
theorem digitsVal_natDigits (n : Nat) : digitsVal (natDigits n) = n :=
  digitsVal_natDigitsFuel (n + 1) n (by omega)

/-- Decimal rendering is injective. -/
theorem natRepr_injective (a b : Nat) (h : natRepr a = natRepr b) : a = b := by
  have hd : natDigits a = natDigits b := by
    have := congrArg String.toList h
    simpa [natRepr] using this
  calc a = digitsVal (natDigits a) := (digitsVal_natDigits a).symm
    _ = digitsVal (natDigits b) := by rw [hd]
    _ = b := digitsVal_natDigits b

/-- Fact: `natDigits` is never empty. -/
theorem natDigits_ne_nil (n : Nat) : natDigits n ≠ [] := by
  unfold natDigits natDigitsFuel
  by_cases hn : n < 10 <;> simp [hn]

/-- The naming loop emits one name per record. -/
theorem genNamesLoop_length (reqs : List GenRequest) (counts : String → Nat) :
    (genNamesLoop counts reqs).length = reqs.length := by
  induction reqs generalizing counts with
  | nil => rfl
  | cons r rest ih =>
      rw [genNamesLoop]
      simp [ih]

/-- Position formula for the naming loop: the `i`-th name is the base name
suffixed by the carried count plus the number of earlier records with the
same base name. -/
theorem genNamesLoop_getElem? (reqs : List GenRequest) (counts : String → Nat)
    (i : Nat) (hi : i < reqs.length) :
    (genNamesLoop counts reqs)[i]? =
      some (testFunctionName reqs[i]
        (counts (extract_test_name reqs[i]) +
          (reqs.take i).countP fun r' =>
            extract_test_name r' == extract_test_name reqs[i])) := by
  induction reqs generalizing counts i with
  | nil => simp at hi
  | cons r rest ih =>
      cases i with
      | zero =>
          rw [genNamesLoop]
          simp
      | succ i =>
          have hi' : i < rest.length := by simpa using hi
          rw [genNamesLoop]
          simp only [List.getElem?_cons_succ, List.getElem_cons_succ,
            List.take_succ_cons, List.countP_cons]
          rw [ih _ i hi']
          congr 2
          by_cases hbr : extract_test_name r = extract_test_name rest[i]
          · rw [if_pos hbr.symm]
            simp [hbr]
            omega
          · rw [if_neg (fun hss => hbr hss.symm)]
            simp [hbr]

/-- Two name slots with the same base name and different occurrence counts
never collide. -/
theorem suffixed_name_ne (base : String) (k1 k2 : Nat) (h : k1 < k2) :
    (if k1 = 0 then base else base ++ "_" ++ natRepr k1) ≠
    (if k2 = 0 then base else base ++ "_" ++ natRepr k2) := by
  have hk2 : ¬(k2 = 0) := by omega
  rw [if_neg hk2]
  by_cases hk1 : k1 = 0
  · rw [if_pos hk1]
    intro hcontra
    have hlen := congrArg (fun s => s.data.length) hcontra
    simp only [String.data_append, List.length_append] at hlen
    have hne := natDigits_ne_nil k2
    have : (natRepr k2).data = natDigits k2 := rfl
    rw [this] at hlen
    cases hd : natDigits k2 with
    | nil => exact hne hd
    | cons c tl =>
        rw [hd] at hlen
        simp at hlen
        omega
  · rw [if_neg hk1]
    intro hcontra
    have hdata := congrArg String.data hcontra
    simp only [String.data_append, List.append_assoc] at hdata
    have h1 := List.append_cancel_left hdata
    have h2 := List.append_cancel_left h1
    have : natDigits k1 = natDigits k2 := h2
    have := congrArg digitsVal this
    rw [digitsVal_natDigits, digitsVal_natDigits] at this
    omega

/-- Earlier-occurrence counts grow strictly along records that satisfy the
predicate. -/
theorem countP_take_lt (reqs : List GenRequest) (p : GenRequest → Bool)
    (i j : Nat) (hij : i < j) (hi : i < reqs.length)
    (hp : p reqs[i] = true) :
    (reqs.take i).countP p < (reqs.take j).countP p := by
  have h1 : reqs.take j = reqs.take (i + 1) ++ (reqs.drop (i + 1)).take (j - (i + 1)) := by
    rw [← List.take_add]
    congr 1
    omega
  have h2 : reqs.take (i + 1) = reqs.take i ++ [reqs[i]] := by
    rw [List.take_succ, List.getElem?_eq_getElem hi]
    rfl
  rw [h1, h2, List.countP_append, List.countP_append]
  have h3 : List.countP p [reqs[i]] = 1 := by
    rw [List.countP_cons, List.countP_nil, hp]
    rfl
  omega

/-! ## Claim C4 -/

/-- Claim C4, counterexample. The numeric-suffix policy does not guarantee
global uniqueness: a batch whose third record has base name
`test_get_users_1` collides with the suffixed second occurrence of
`test_get_users`, so the generated name list contains a duplicate. -/
theorem generateTestNames_not_unique :
    generateTestNames [genUsers1, genUsers2, genUsersBang] =
      ["test_get_users", "test_get_users_1", "test_get_users_1"]
    ∧ ¬ (generateTestNames [genUsers1, genUsers2, genUsersBang]).Nodup :=
  ⟨by decide, by decide⟩

/-- Claim C4 (amended). In one generation pass the first record producing a
base name keeps it and every later record with the same base name gets a
numeric suffix equal to its zero-based occurrence index; names are stable,
order-dependent, and distinct *among records sharing a base name* — but
distinct base names can still collide with suffixed names (see the
counterexample), so uniqueness of the whole list is not guaranteed. -/
theorem generateTestNames_collision_policy (reqs : List GenRequest) :
    ((generateTestNames reqs).length = reqs.length)
    ∧ (∀ (i : Nat) (hi : i < reqs.length),
        (generateTestNames reqs)[i]? =
          some (if ((reqs.take i).countP fun r' =>
              extract_test_name r' == extract_test_name reqs[i]) = 0 then
            extract_test_name reqs[i]
          else
            extract_test_name reqs[i] ++ "_" ++
              natRepr ((reqs.take i).countP fun r' =>
                extract_test_name r' == extract_test_name reqs[i])))
    ∧ (∀ (i j : Nat) (hi : i < reqs.length) (hj : j < reqs.length), i ≠ j →
        extract_test_name reqs[i] = extract_test_name reqs[j] →
        (generateTestNames reqs)[i]? ≠ (generateTestNames reqs)[j]?) := by
  have hpos : ∀ (i : Nat) (hi : i < reqs.length),
      (generateTestNames reqs)[i]? =
        some (if ((reqs.take i).countP fun r' =>
            extract_test_name r' == extract_test_name reqs[i]) = 0 then
          extract_test_name reqs[i]
        else
          extract_test_name reqs[i] ++ "_" ++
            natRepr ((reqs.take i).countP fun r' =>
              extract_test_name r' == extract_test_name reqs[i])) := by
    intro i hi
    rw [generateTestNames, genNamesLoop_getElem? reqs _ i hi]
    unfold testFunctionName
    congr 1
    by_cases hk : ((reqs.take i).countP fun r' =>
        extract_test_name r' == extract_test_name reqs[i]) = 0
    · rw [if_pos hk]
      simp [hk]
    · rw [if_neg hk]
      simp [Nat.pos_of_ne_zero hk, Nat.zero_add]
  refine ⟨by rw [generateTestNames, genNamesLoop_length], hpos, ?_⟩
  intro i j hi hj hij hbase
  -- without loss of generality consider the smaller index first
  rcases Nat.lt_or_ge i j with hlt | hge
  · rw [hpos i hi, hpos j hj, hbase]
    intro hcontra
    have hk := countP_take_lt reqs
      (fun r' => extract_test_name r' == extract_test_name reqs[j]) i j hlt hi
      (by simp [hbase])
    exact suffixed_name_ne (extract_test_name reqs[j]) _ _ hk
      (Option.some.injEq _ _ ▸ hcontra)
  · have hlt : j < i := by omega
    rw [hpos i hi, hpos j hj, hbase]
    intro hcontra
    have hk := countP_take_lt reqs
      (fun r' => extract_test_name r' == extract_test_name reqs[j]) j i hlt hj
      (by simp)
    exact suffixed_name_ne (extract_test_name reqs[j]) _ _ hk
      (Option.some.injEq _ _ ▸ hcontra).symm

/-- Claim C4, witness. The spec's scenario: two records both deriving
`test_get_users` are named `test_get_users` and `test_get_users_1`, and
the collision-policy theorem applies to them. -/
theorem generateTestNames_collision_policy_witness :
    generateTestNames [genUsers1, genUsers2] = ["test_get_users", "test_get_users_1"]
    ∧ (generateTestNames [genUsers1, genUsers2])[0]? ≠
        (generateTestNames [genUsers1, genUsers2])[1]? := by
  refine ⟨by decide, ?_⟩
  exact (generateTestNames_collision_policy [genUsers1, genUsers2]).2.2 0 1
    (by decide) (by decide) (by decide) (by decide)

/-! ## URL-path lemmas (claim C6) -/

/-- A `takeWhile` scan never crosses a failing character, whatever
follows it. -/
theorem takeWhile_append_stop (p : Char → Bool) (x : Char) (hx : p x = false)
    (l v : List Char) : List.takeWhile p (l ++ x :: v) = List.takeWhile p l := by
  rw [List.takeWhile_append]
  split
  · rename_i hlen
    rw [List.takeWhile_cons_of_neg (by simp [hx]), List.append_nil]
    exact ((List.takeWhile_sublist p).eq_of_length hlen).symm
  · rfl

/-- Fact: `splitScheme` leaves a string without `':'` alone. -/
theorem splitScheme_of_no_colon (cs : List Char)
    (h : (cs.dropWhile fun c => !(c == ':')) = []) : splitScheme cs = cs := by
  unfold splitScheme
  rw [h]

/-- Fact: `splitScheme` on a string whose first `':'` exists. -/
theorem splitScheme_of_colon (cs rest : List Char)
    (h : (cs.dropWhile fun c => !(c == ':')) = ':' :: rest) :
    splitScheme cs =
      if (cs.takeWhile fun c => !(c == ':')) ≠ []
          ∧ (cs.takeWhile fun c => !(c == ':')).headI.isAlpha
          ∧ (cs.takeWhile fun c => !(c == ':')).all isSchemeChar then
        rest
      else cs := by
  unfold splitScheme
  rw [h]
  rfl


/-- Appending `'?' :: v` does not disturb the scheme split. -/
theorem splitScheme_append_query (u v : List Char) :
    splitScheme (u ++ '?' :: v) = splitScheme u ++ '?' :: v := by
  cases hdu : u.dropWhile fun c => !(c == ':') with
  | nil =>
      have hall : ∀ c ∈ u, (!(c == ':')) = true := List.dropWhile_eq_nil_iff.mp hdu
      have htu : (u.takeWhile fun c => !(c == ':')) = u :=
        List.takeWhile_eq_self_iff.mpr hall
      have hde : ((u ++ '?' :: v).dropWhile fun c => !(c == ':')) =
          v.dropWhile fun c => !(c == ':') := by
        rw [List.dropWhile_append, hdu]
        simp only [List.isEmpty_nil, if_true]
        rw [List.dropWhile_cons_of_pos (by decide)]
      have hte : ((u ++ '?' :: v).takeWhile fun c => !(c == ':')) =
          u ++ '?' :: v.takeWhile fun c => !(c == ':') := by
        rw [List.takeWhile_append, htu]
        simp [List.takeWhile_cons]
      rw [splitScheme_of_no_colon u hdu]
      cases hdv : v.dropWhile fun c => !(c == ':') with
      | nil =>
          rw [splitScheme_of_no_colon _ (by rw [hde, hdv])]
      | cons c rest =>
          have hc : c = ':' := by
            by_contra hcne
            have := List.head?_dropWhile_not (fun c => !(c == ':')) v
            rw [hdv] at this
            simp at this
            exact hcne this
          subst hc
          rw [splitScheme_of_colon _ rest (by rw [hde, hdv])]
          rw [if_neg]
          intro hcond
          have hq : ('?' : Char) ∈ ((u ++ '?' :: v).takeWhile fun c => !(c == ':')) := by
            rw [hte]
            simp
          have := List.all_eq_true.mp hcond.2.2 '?' hq
          simp [isSchemeChar] at this
  | cons x xs =>
      have hne : ¬((u.dropWhile fun c => !(c == ':')).isEmpty = true) := by
        rw [hdu]
        simp
      have hde : ((u ++ '?' :: v).dropWhile fun c => !(c == ':')) =
          x :: (xs ++ '?' :: v) := by
        rw [List.dropWhile_append, if_neg hne, hdu]
        rfl
      have hlen : ¬((u.takeWhile fun c => !(c == ':')).length = u.length) := by
        intro hl
        have heq := (List.takeWhile_sublist (l := u) (fun c => !(c == ':'))).eq_of_length hl
        rw [List.takeWhile_eq_self_iff] at heq
        rw [List.dropWhile_eq_nil_iff.mpr heq] at hdu
        cases hdu
      have hte : ((u ++ '?' :: v).takeWhile fun c => !(c == ':')) =
          u.takeWhile fun c => !(c == ':') := by
        rw [List.takeWhile_append, if_neg hlen]
      by_cases hx : x = ':'
      · subst hx
        rw [splitScheme_of_colon u xs hdu,
          splitScheme_of_colon (u ++ '?' :: v) (xs ++ '?' :: v) hde, hte]
        split
        · rfl
        · rfl
      · have hu : splitScheme u = u := by
          unfold splitScheme
          rw [hdu]
          split
          · rename_i heq
            cases heq
            exact absurd rfl hx
          · rfl
        have hext : splitScheme (u ++ '?' :: v) = u ++ '?' :: v := by
          unfold splitScheme
          rw [hde]
          split
          · rename_i heq
            cases heq
            exact absurd rfl hx
          · rfl
        rw [hu, hext]

/-- Fact: `dropNetloc` leaves strings that do not start with `//` alone. -/
theorem dropNetloc_eq_self (cs : List Char) (h : cs.take 2 ≠ ['/', '/']) :
    dropNetloc cs = cs := by
  unfold dropNetloc
  split
  · rename_i rest
    exact absurd rfl h
  · rfl

/-- Starting with `//` is insensitive to appending `'?' :: v`. -/
theorem take2_append_query (w v : List Char) :
    (w ++ '?' :: v).take 2 = ['/', '/'] ↔ w.take 2 = ['/', '/'] := by
  match w with
  | [] => simp [List.take]
  | [c] => simp [List.take]
  | c1 :: c2 :: w2 => simp [List.take]

/-- The path left after the netloc is insensitive to an appended query. -/
theorem pathTail_append_query (w v : List Char) :
    (dropNetloc (w ++ '?' :: v)).takeWhile (fun c => !(c == '?' || c == '#')) =
    (dropNetloc w).takeWhile (fun c => !(c == '?' || c == '#')) := by
  by_cases h2 : w.take 2 = ['/', '/']
  · obtain ⟨w2, rfl⟩ : ∃ w2, w = '/' :: '/' :: w2 := by
      match w, h2 with
      | c1 :: c2 :: w2, h2 =>
          simp [List.take] at h2
          exact ⟨w2, by rw [h2.1, h2.2]⟩
    have hl : ('/' :: '/' :: w2) ++ '?' :: v = '/' :: '/' :: (w2 ++ '?' :: v) := rfl
    rw [hl]
    rw [show dropNetloc ('/' :: '/' :: (w2 ++ '?' :: v)) =
        (w2 ++ '?' :: v).dropWhile (fun c => !(c == '/' || c == '?' || c == '#')) from rfl,
      show dropNetloc ('/' :: '/' :: w2) =
        w2.dropWhile (fun c => !(c == '/' || c == '?' || c == '#')) from rfl]
    rw [List.dropWhile_append]
    by_cases he : (w2.dropWhile fun c => !(c == '/' || c == '?' || c == '#')).isEmpty = true
    · rw [if_pos he]
      rw [List.dropWhile_cons_of_neg (by decide),
        List.takeWhile_cons_of_neg (by decide),
        List.isEmpty_iff.mp he]
      rfl
    · rw [if_neg he]
      exact takeWhile_append_stop _ '?' (by decide) _ v
  · rw [dropNetloc_eq_self _ (fun hc => h2 ((take2_append_query w v).mp hc)),
      dropNetloc_eq_self _ h2]
    exact takeWhile_append_stop _ '?' (by decide) _ v

/-- Fact: `urlparse` path extraction ignores everything from the first appended
`?` on: `urlPath (u ++ "?" ++ q) = urlPath u`. -/
theorem urlPath_append_query (u q : String) :
    urlPath (u ++ "?" ++ q) = urlPath u := by
  unfold urlPath urlPathAux
  have hl : (u ++ "?" ++ q).toList = u.toList ++ '?' :: q.toList := by
    show (u ++ "?" ++ q).data = u.data ++ '?' :: q.data
    rw [String.data_append, String.data_append, List.append_assoc]
    rfl
  rw [hl, splitScheme_append_query]
  exact congrArg String.mk (pathTail_append_query _ _)

/-! ## Claim C6 -/

/-- Claim C6. Two records with the same method whose URLs share one base and
differ only in their query strings produce identical endpoint signatures,
namely `method ++ ":" ++ urlPath base` — the query string is excluded, and
scheme and host are excluded because `urlPath` is the URL's path
component. -/
theorem generate_api_signature_query_independent
    (r1 r2 : CapturedRequest) (m base q1 q2 : String)
    (hm1 : r1.method = some m) (hm2 : r2.method = some m)
    (hu1 : r1.url = some (base ++ "?" ++ q1))
    (hu2 : r2.url = some (base ++ "?" ++ q2)) :
    generate_api_signature r1 = generate_api_signature r2
    ∧ generate_api_signature r1 = m ++ ":" ++ urlPath base := by
  have h1 : generate_api_signature r1 = m ++ ":" ++ urlPath base := by
    unfold generate_api_signature
    rw [hm1, hu1, Option.getD_some, Option.getD_some, urlPath_append_query]
  have h2 : generate_api_signature r2 = m ++ ":" ++ urlPath base := by
    unfold generate_api_signature
    rw [hm2, hu2, Option.getD_some, Option.getD_some, urlPath_append_query]
  exact ⟨h1.trans h2.symm, h1⟩

/-- Claim C6, witness. `GET http://a/x?p=1` and `GET http://a/x?p=2` share
the signature `GET:/x`. -/
theorem generate_api_signature_query_independent_witness :
    generate_api_signature
        { reqA with url := some ("http://a/x" ++ "?" ++ "p=1") } =
      generate_api_signature
        { reqA with url := some ("http://a/x" ++ "?" ++ "p=2") }
    ∧ generate_api_signature
        { reqA with url := some ("http://a/x" ++ "?" ++ "p=1") } =
      "GET" ++ ":" ++ urlPath "http://a/x" :=
  generate_api_signature_query_independent _ _ "GET" "http://a/x" "p=1" "p=2"
    rfl rfl rfl rfl

/-! ## Claim C7 -/

/-- Claim C7, counterexample. The fingerprint depends on the *ordered list*
of body field names, not their set: `reqAB` and `reqBA` agree on method,
URL-without-query and response status and their body key lists are
permutations of each other, yet their fingerprints differ. -/
theorem generate_request_hash_key_order_sensitive :
    reqAB.method = reqBA.method
    ∧ stripQuery (reqAB.url.getD "") = stripQuery (reqBA.url.getD "")
    ∧ (requestKeyInfo reqAB).bodyKeys = some ["a", "b"]
    ∧ (requestKeyInfo reqBA).bodyKeys = some ["b", "a"]
    ∧ (["a", "b"] : List String).Perm ["b", "a"]
    ∧ (requestKeyInfo reqAB).responseStatus = (requestKeyInfo reqBA).responseStatus
    ∧ generate_request_hash reqAB ≠ generate_request_hash reqBA :=
  ⟨rfl, rfl, rfl, rfl, by decide, rfl, by decide⟩

/-- Claim C7 (amended). The fingerprint depends only on the method, the URL
without its query string, the *list* of body field names in the body's own
key order when the body is a JSON object (absent otherwise), and the
response status; in particular records that are identical except for their
`timestamp`, their `resource_type` and their header entries (in any order)
hash identically. -/
theorem generate_request_hash_projection (r1 r2 : CapturedRequest)
    (hm : r1.method = r2.method)
    (hu : stripQuery (r1.url.getD "") = stripQuery (r2.url.getD ""))
    (hb : (requestKeyInfo r1).bodyKeys = (requestKeyInfo r2).bodyKeys)
    (hs : r1.response.bind (·.status) = r2.response.bind (·.status)) :
    generate_request_hash r1 = generate_request_hash r2 := by
  have hk : requestKeyInfo r1 = requestKeyInfo r2 := by
    unfold requestKeyInfo at hb ⊢
    simp only at hb
    rw [hm, hu, hb, hs]
  unfold generate_request_hash
  rw [hk]

/-- Claim C7, witness. Changing the timestamp, the header order and the
resource type leaves the fingerprint unchanged. -/
theorem generate_request_hash_projection_witness :
    generate_request_hash reqAB =
      generate_request_hash
        { reqAB with
            timestamp := "2031-12-31T23:59:59"
            headers := [("x-two", "2"), ("x-one", "1")]
            resourceType := "xhr" } :=
  generate_request_hash_projection _ _ rfl rfl rfl rfl

/-! ## Claim C8 -/

/-- Claim C8. Feeding the recorder two interceptable events with the same
method and URL-without-query (both fetches succeeding) records exactly one
request when dedupe is enabled and exactly two when it is disabled. -/
theorem interceptor_dedupe (cfg : InterceptorConfig) (e1 e2 : RouteEvent)
    (hm : e1.method = e2.method)
    (hq : stripQuery e1.url = stripQuery e2.url)
    (hi1 : should_intercept cfg e1 = true)
    (hi2 : should_intercept cfg e2 = true)
    (hf1 : e1.fetchResult.isSome = true)
    (hf2 : e2.fetchResult.isSome = true) :
    (cfg.deduplicate = true →
      (runInterceptor cfg [e1, e2]).interceptedRequests.length = 1)
    ∧ (cfg.deduplicate = false →
      (runInterceptor cfg [e1, e2]).interceptedRequests.length = 2) := by
  obtain ⟨resp1, hresp1⟩ := Option.isSome_iff_exists.mp hf1
  obtain ⟨resp2, hresp2⟩ := Option.isSome_iff_exists.mp hf2
  have hsig : interceptor_signature e2 = interceptor_signature e1 := by
    unfold interceptor_signature
    rw [hm, hq]
  constructor
  · intro hd
    have hst1 : handle_route cfg ⟨[], []⟩ e1 =
        ⟨[capturedOf e1 resp1], [interceptor_signature e1]⟩ := by
      unfold handle_route
      rw [hi1, hd, hresp1]
      simp
    show (handle_route cfg (handle_route cfg ⟨[], []⟩ e1) e2).interceptedRequests.length = 1
    rw [hst1]
    unfold handle_route
    rw [hi2, hd, hsig]
    simp
  · intro hd
    have hst1 : handle_route cfg ⟨[], []⟩ e1 = ⟨[capturedOf e1 resp1], []⟩ := by
      unfold handle_route
      rw [hi1, hd, hresp1]
      simp
    show (handle_route cfg (handle_route cfg ⟨[], []⟩ e1) e2).interceptedRequests.length = 2
    rw [hst1]
    unfold handle_route
    rw [hi2, hd, hresp2]
    simp

/-- Claim C8, witness. Two `GET /api/users` events differing only in their
query strings: one record with dedupe on, two with dedupe off. -/
theorem interceptor_dedupe_witness :
    (runInterceptor cfgDedup [evtPage1, evtPage2]).interceptedRequests.length = 1
    ∧ (runInterceptor cfgNoDedup [evtPage1, evtPage2]).interceptedRequests.length = 2 :=
  ⟨(interceptor_dedupe cfgDedup evtPage1 evtPage2 rfl (by decide)
      (by decide) (by decide) rfl rfl).1 rfl,
   (interceptor_dedupe cfgNoDedup evtPage1 evtPage2 rfl (by decide)
      (by decide) (by decide) rfl rfl).2 rfl⟩

/-! ## Claim C9 -/

/-- Claim C9, counterexample. A source file decoding to `{}` — valid JSON
that is *not* the expected batch format — does not cause a hard failure:
`data.get('requests', [])` silently defaults and the call returns the
empty-batch no-op. -/
theorem generate_from_file_not_batch_format_no_error :
    generate_from_file (Except.ok (PyVal.pyDict [])) = Except.ok none
    ∧ isExpectedBatchFormat (PyVal.pyDict []) = false :=
  ⟨rfl, rfl⟩

/-- Claim C9 (amended). An empty (or falsy/absent) `requests` entry yields a
no-op with no file written; a source that fails to decode as JSON, or
decodes to a non-dict, is a hard failure raised to the caller with no
output written — but a decoded dict that is not a `RequestBatch` (e.g.
`{}`) is treated as the empty no-op case, not as a failure. -/
theorem generate_from_file_error_handling :
    (∀ e : String, generate_from_file (Except.error e) = Except.error e)
    ∧ (∀ es : List (String × PyVal),
        ((pyDictGet? es "requests").getD (PyVal.pyList [])).isTruthy = false →
        generate_from_file (Except.ok (PyVal.pyDict es)) = Except.ok none)
    ∧ (∀ v : PyVal, (∀ es, v ≠ PyVal.pyDict es) →
        ∃ msg, generate_from_file (Except.ok v) = Except.error msg) := by
  refine ⟨fun e => rfl, ?_, ?_⟩
  · intro es hfalsy
    simp only [generate_from_file, hfalsy, Bool.not_false, if_true]
  · intro v hv
    cases v with
    | pyDict es => exact absurd rfl (hv es)
    | pyNone => exact ⟨_, rfl⟩
    | pyBool b => exact ⟨_, rfl⟩
    | pyInt n => exact ⟨_, rfl⟩
    | pyStr s => exact ⟨_, rfl⟩
    | pyList xs => exact ⟨_, rfl⟩

/-- Claim C9, witness. A JSON decode error propagates; a batch with an empty
`requests` list is a silent no-op; a top-level JSON array raises. -/
theorem generate_from_file_error_handling_witness :
    generate_from_file (Except.error "Expecting value: line 1 column 1") =
      Except.error "Expecting value: line 1 column 1"
    ∧ generate_from_file (Except.ok (PyVal.pyDict
        [("total", PyVal.pyInt 0), ("requests", PyVal.pyList [])])) = Except.ok none
    ∧ ∃ msg, generate_from_file (Except.ok (PyVal.pyList [PyVal.pyInt 1])) =
        Except.error msg :=
  ⟨generate_from_file_error_handling.1 "Expecting value: line 1 column 1",
   generate_from_file_error_handling.2.1
     [("total", PyVal.pyInt 0), ("requests", PyVal.pyList [])] (by decide),
   generate_from_file_error_handling.2.2 (PyVal.pyList [PyVal.pyInt 1])
     (by intro es h; cases h)⟩

end PWTF


